import Mathlib

/-!
# Verification of `olca-tools` (NETL-RIC)

Shallow embedding, in Lean 4, of the parts of the `olca-tools` Python
repository needed to settle the frozen claims C1..C10, together with the
theorems that settle them.

Modelling conventions:
* Python floats are modelled as `ℚ` (for the data-frame arithmetic) or `ℝ`
  (for the Hawkins-Young statistics); note that in `ℚ`/`ℝ` we have
  `x / 0 = 0`, so theorems carry the non-degeneracy hypotheses needed to
  stay faithful to the float behaviour of the source.
* pandas data frames are modelled as lists of row structures; `df.query`
  becomes `List.filter`, column assignment becomes `List.map`, and
  `df['c'].unique()` becomes `(df.map (·.c)).dedup`.
* Python strings handled by regular expressions are modelled as `List Char`.
-/

namespace ElciToRem

/-- `GREEN_E` from `elci_to_rem.py`: the primary fuel categories associated
with renewable energy. -/
def GREEN_E : List String :=
  ["HYDRO", "BIOMASS", "SOLAR", "SOLARTHERMAL", "WIND", "GEOTHERMAL"]

/-- `OVERFLOW_E` from `elci_to_rem.py`: the primary fuel categories that
could have renewable generation folded into them. -/
def OVERFLOW_E : List String := ["MIXED", "OTHF"]

/-- One row of the generation-mix data frame handled by `update_mix`
(`elci_to_rem.py`).  The `electricityNew`/`genRatioNew` fields model the
`Electricity_new` and `Gen_Ratio_new` columns added by `update_mix`. -/
structure MixRow where
  subregion : String
  baCode : String
  fuelCategory : String
  electricity : ℚ
  generationRatio : ℚ
  electricityNew : ℚ
  genRatioNew : ℚ
deriving Repr, DecidableEq

/-- `FuelCategory in @GREEN_E` from the `df.query` calls in `update_mix`. -/
def isGreen (r : MixRow) : Bool := GREEN_E.contains r.fuelCategory

/-- `total_e = df['Electricity'].sum()` in `calc_relative_ratio`
(`elci_to_rem.py`); the value stored in the `Relative_Total` column. -/
def relTotal (l : List MixRow) : ℚ := (l.map MixRow.electricity).sum

/-- The `Relative_Ratio` column added by `calc_relative_ratio`:
`df['Electricity'] / total_e` for a row of the group `l`. -/
def relRatio (l : List MixRow) (r : MixRow) : ℚ := r.electricity / relTotal l

/-- `ng_df = df.query("(FuelCategory not in @GREEN_E) & (Subregion == @baa)")`
in `update_mix`. -/
def ngFilter (baa : String) (df : List MixRow) : List MixRow :=
  df.filter (fun r => !isGreen r && r.subregion == baa)

/-- `g_df = df.query("(FuelCategory in @GREEN_E) & (Subregion == @baa)")`
in `update_mix`. -/
def gFilter (baa : String) (df : List MixRow) : List MixRow :=
  df.filter (fun r => isGreen r && r.subregion == baa)

/-- The `rec_handler` switch of `update_mix` (`'keep'` or `'zero'`). -/
inductive RecHandler where
  | keep : RecHandler
  | zero : RecHandler
deriving Repr, DecidableEq

/-- The per-balancing-authority totals `(gx, ngx)` computed by the body of
the `for baa in df['Subregion'].unique()` loop of `update_mix`:

* `ng`/`ngx` start at `0.0` and are set to the non-green `Relative_Total`
  when the non-green group is non-empty;
* for a non-empty green group, `big_g` is the green `Relative_Total`,
  `rec_t` the REC aggregate merged in on `BA_CODE` (a per-authority
  constant, read off the first green row), and `gx = big_g - rec_t`;
* when `rec_t > big_g`, the negative green generation is handled per the
  `rec_handler` policy, pulling the excess from non-green rows only when
  `rec_handler == 'keep'` and some non-green fuel is in `OVERFLOW_E`.

The REC aggregate series (`get_rec_agg`) is abstracted as `agg : String → ℚ`
from `BA_CODE` to the allocated REC total. -/
def baTotals (handler : RecHandler) (agg : String → ℚ)
    (ng_df g_df : List MixRow) : ℚ × ℚ :=
  let ng : ℚ := if ng_df.isEmpty then 0 else relTotal ng_df
  match g_df.head? with
  | none => (0, ng)
  | some g0 =>
      let big_g := relTotal g_df
      let rec_t := agg g0.baCode
      if big_g < rec_t then
        let has_ofe := ng_df.any (fun r => OVERFLOW_E.contains r.fuelCategory)
        if handler = RecHandler.keep ∧ has_ofe then
          (0, max 0 (ng - (rec_t - big_g)))
        else
          (0, ng)
      else
        (big_g - rec_t, ng)

/-- Overwrite the `Electricity_new` and `Gen_Ratio_new` columns of a row
(the assignments `ng_df['Electricity_new'] = ...` etc., propagated back by
`df.update`). -/
def setNew (e g : ℚ) (r : MixRow) : MixRow :=
  { r with electricityNew := e, genRatioNew := g }

/-- One iteration of the `for baa in ...` loop of `update_mix`: compute the
non-green and green groups for the authority `baa`, their `(gx, ngx)`
totals, and write the new electricity amounts and mix ratios back into the
rows of `baa` (the two `df.update(...)` calls). -/
def processBA (handler : RecHandler) (agg : String → ℚ) (baa : String)
    (df : List MixRow) : List MixRow :=
  let ng_df := ngFilter baa df
  let g_df := gFilter baa df
  let p := baTotals handler agg ng_df g_df
  let nonRec := p.1 + p.2
  df.map (fun r =>
    if r.subregion == baa then
      if isGreen r then
        setNew (relRatio g_df r * p.1)
          (if 0 < nonRec then relRatio g_df r * p.1 / nonRec else 0) r
      else
        setNew (relRatio ng_df r * p.2)
          (if 0 < nonRec then relRatio ng_df r * p.2 / nonRec else 0) r
    else r)

/-- The initialization
`df['Electricity_new'] = df['Electricity']`,
`df['Gen_Ratio_new'] = df['Generation_Ratio']` at the top of `update_mix`. -/
def initRow (r : MixRow) : MixRow :=
  { r with electricityNew := r.electricity, genRatioNew := r.generationRatio }

/-- `update_mix` from `elci_to_rem.py`: initialize the new columns and run
the per-authority loop over the unique subregions of the frame. -/
def update_mix (handler : RecHandler) (agg : String → ℚ)
    (df : List MixRow) : List MixRow :=
  let df0 := df.map initRow
  ((df0.map MixRow.subregion).dedup).foldl
    (fun acc baa => processBA handler agg baa acc) df0

@[simp] theorem setNew_subregion (e g : ℚ) (r : MixRow) :
    (setNew e g r).subregion = r.subregion := rfl

@[simp] theorem setNew_baCode (e g : ℚ) (r : MixRow) :
    (setNew e g r).baCode = r.baCode := rfl

@[simp] theorem setNew_fuelCategory (e g : ℚ) (r : MixRow) :
    (setNew e g r).fuelCategory = r.fuelCategory := rfl

@[simp] theorem setNew_electricity (e g : ℚ) (r : MixRow) :
    (setNew e g r).electricity = r.electricity := rfl

@[simp] theorem setNew_electricityNew (e g : ℚ) (r : MixRow) :
    (setNew e g r).electricityNew = e := rfl

@[simp] theorem setNew_genRatioNew (e g : ℚ) (r : MixRow) :
    (setNew e g r).genRatioNew = g := rfl

@[simp] theorem setNew_setNew (e g e' g' : ℚ) (r : MixRow) :
    setNew e g (setNew e' g' r) = setNew e g r := rfl

@[simp] theorem initRow_subregion (r : MixRow) :
    (initRow r).subregion = r.subregion := rfl

@[simp] theorem initRow_baCode (r : MixRow) :
    (initRow r).baCode = r.baCode := rfl

@[simp] theorem initRow_fuelCategory (r : MixRow) :
    (initRow r).fuelCategory = r.fuelCategory := rfl

@[simp] theorem initRow_electricity (r : MixRow) :
    (initRow r).electricity = r.electricity := rfl

@[simp] theorem setNew_initRow (e g : ℚ) (r : MixRow) :
    setNew e g (initRow r) = setNew e g r := rfl

/-- The update applied by `processBA r.subregion` to the row `r` itself,
expressed as a function of the whole frame: this is what one loop
iteration of `update_mix` writes into a row of the authority being
processed. -/
def updateRow (handler : RecHandler) (agg : String → ℚ)
    (df : List MixRow) (r : MixRow) : MixRow :=
  let ng_df := ngFilter r.subregion df
  let g_df := gFilter r.subregion df
  let p := baTotals handler agg ng_df g_df
  let nonRec := p.1 + p.2
  if isGreen r then
    setNew (relRatio g_df r * p.1)
      (if 0 < nonRec then relRatio g_df r * p.1 / nonRec else 0) r
  else
    setNew (relRatio ng_df r * p.2)
      (if 0 < nonRec then relRatio ng_df r * p.2 / nonRec else 0) r

@[simp] theorem updateRow_subregion (h : RecHandler) (agg : String → ℚ)
    (df : List MixRow) (r : MixRow) :
    (updateRow h agg df r).subregion = r.subregion := by
  unfold updateRow
  by_cases hg : isGreen r <;> simp [hg]

@[simp] theorem updateRow_baCode (h : RecHandler) (agg : String → ℚ)
    (df : List MixRow) (r : MixRow) :
    (updateRow h agg df r).baCode = r.baCode := by
  unfold updateRow
  by_cases hg : isGreen r <;> simp [hg]

@[simp] theorem updateRow_fuelCategory (h : RecHandler) (agg : String → ℚ)
    (df : List MixRow) (r : MixRow) :
    (updateRow h agg df r).fuelCategory = r.fuelCategory := by
  unfold updateRow
  by_cases hg : isGreen r <;> simp [hg]

@[simp] theorem updateRow_electricity (h : RecHandler) (agg : String → ℚ)
    (df : List MixRow) (r : MixRow) :
    (updateRow h agg df r).electricity = r.electricity := by
  unfold updateRow
  by_cases hg : isGreen r <;> simp [hg]

/-- `processBA` in terms of the per-row update function. -/
theorem processBA_eq_map (h : RecHandler) (agg : String → ℚ) (baa : String)
    (df : List MixRow) :
    processBA h agg baa df
      = df.map (fun r =>
          if r.subregion = baa then updateRow h agg df r else r) := by
  unfold processBA
  refine List.map_congr_left (fun r _ => ?_)
  by_cases hs : r.subregion = baa
  · subst hs
    simp only [beq_self_eq_true, if_true, updateRow]
  · simp [hs]

/-- Conditional-update function used to describe intermediate states of the
`update_mix` fold: rows whose subregion satisfies `S` have been processed. -/
def updIf (h : RecHandler) (agg : String → ℚ) (df0 : List MixRow)
    (S : String → Prop) [DecidablePred S] (r : MixRow) : MixRow :=
  if S r.subregion then updateRow h agg df0 r else r

@[simp] theorem updIf_subregion (h : RecHandler) (agg : String → ℚ)
    (df0 : List MixRow) (S : String → Prop) [DecidablePred S] (r : MixRow) :
    (updIf h agg df0 S r).subregion = r.subregion := by
  unfold updIf; split <;> simp

@[simp] theorem updIf_baCode (h : RecHandler) (agg : String → ℚ)
    (df0 : List MixRow) (S : String → Prop) [DecidablePred S] (r : MixRow) :
    (updIf h agg df0 S r).baCode = r.baCode := by
  unfold updIf; split <;> simp

@[simp] theorem updIf_fuelCategory (h : RecHandler) (agg : String → ℚ)
    (df0 : List MixRow) (S : String → Prop) [DecidablePred S] (r : MixRow) :
    (updIf h agg df0 S r).fuelCategory = r.fuelCategory := by
  unfold updIf; split <;> simp

@[simp] theorem updIf_electricity (h : RecHandler) (agg : String → ℚ)
    (df0 : List MixRow) (S : String → Prop) [DecidablePred S] (r : MixRow) :
    (updIf h agg df0 S r).electricity = r.electricity := by
  unfold updIf; split <;> simp

@[simp] theorem updIf_isGreen (h : RecHandler) (agg : String → ℚ)
    (df0 : List MixRow) (S : String → Prop) [DecidablePred S] (r : MixRow) :
    isGreen (updIf h agg df0 S r) = isGreen r := by
  unfold isGreen; rw [updIf_fuelCategory]

theorem isEmpty_map_updIf (h : RecHandler) (agg : String → ℚ)
    (df0 : List MixRow) (S : String → Prop) [DecidablePred S]
    (l : List MixRow) :
    (l.map (updIf h agg df0 S)).isEmpty = l.isEmpty := by
  cases l <;> simp

/-- Mapping `updIf` over a frame does not change its group filters except
through the already-mapped rows. -/
theorem ngFilter_map_updIf (h : RecHandler) (agg : String → ℚ)
    (df0 : List MixRow) (S : String → Prop) [DecidablePred S]
    (baa : String) (df : List MixRow) :
    ngFilter baa (df.map (updIf h agg df0 S))
      = (ngFilter baa df).map (updIf h agg df0 S) := by
  unfold ngFilter
  rw [List.filter_map]
  have hp : ((fun r => !isGreen r && r.subregion == baa) ∘ updIf h agg df0 S)
      = fun r => !isGreen r && r.subregion == baa := by
    funext r
    simp [Function.comp]
  rw [hp]

theorem gFilter_map_updIf (h : RecHandler) (agg : String → ℚ)
    (df0 : List MixRow) (S : String → Prop) [DecidablePred S]
    (baa : String) (df : List MixRow) :
    gFilter baa (df.map (updIf h agg df0 S))
      = (gFilter baa df).map (updIf h agg df0 S) := by
  unfold gFilter
  rw [List.filter_map]
  have hp : ((fun r => isGreen r && r.subregion == baa) ∘ updIf h agg df0 S)
      = fun r => isGreen r && r.subregion == baa := by
    funext r
    simp [Function.comp]
  rw [hp]

theorem relTotal_map_updIf (h : RecHandler) (agg : String → ℚ)
    (df0 : List MixRow) (S : String → Prop) [DecidablePred S]
    (l : List MixRow) :
    relTotal (l.map (updIf h agg df0 S)) = relTotal l := by
  unfold relTotal
  rw [List.map_map]
  have hp : (MixRow.electricity ∘ updIf h agg df0 S) = MixRow.electricity := by
    funext r
    simp [Function.comp]
  rw [hp]

theorem baTotals_map_updIf (h h' : RecHandler) (agg : String → ℚ)
    (df0 : List MixRow) (S : String → Prop) [DecidablePred S]
    (ng_df g_df : List MixRow) :
    baTotals h' agg (ng_df.map (updIf h agg df0 S))
        (g_df.map (updIf h agg df0 S))
      = baTotals h' agg ng_df g_df := by
  unfold baTotals
  rw [relTotal_map_updIf, relTotal_map_updIf, isEmpty_map_updIf,
    List.any_map]
  have hp : ((fun r => OVERFLOW_E.contains r.fuelCategory)
      ∘ updIf h agg df0 S) = fun r => OVERFLOW_E.contains r.fuelCategory := by
    funext r
    simp [Function.comp]
  rw [hp]
  cases g_df with
  | nil => rfl
  | cons g0 gs =>
      simp only [List.map_cons, List.head?_cons, updIf_baCode]

theorem relRatio_map_updIf (h : RecHandler) (agg : String → ℚ)
    (df0 : List MixRow) (S : String → Prop) [DecidablePred S]
    (l : List MixRow) (r : MixRow) :
    relRatio (l.map (updIf h agg df0 S)) (updIf h agg df0 S r)
      = relRatio l r := by
  unfold relRatio
  rw [relTotal_map_updIf, updIf_electricity]

theorem setNew_updIf (h : RecHandler) (agg : String → ℚ)
    (df0 : List MixRow) (S : String → Prop) [DecidablePred S]
    (e g : ℚ) (r : MixRow) :
    setNew e g (updIf h agg df0 S r) = setNew e g r := by
  unfold updIf
  split
  · unfold updateRow
    split <;> simp
  · rfl

/-- Recomputing a row's update on a partially processed frame gives the
same result as on the initialized frame: the update reads only fields that
`updIf` preserves. -/
theorem updateRow_map_updIf (h : RecHandler) (agg : String → ℚ)
    (df0 : List MixRow) (S : String → Prop) [DecidablePred S] (r : MixRow) :
    updateRow h agg (df0.map (updIf h agg df0 S)) (updIf h agg df0 S r)
      = updateRow h agg df0 r := by
  conv_lhs => rw [updateRow]
  conv_rhs => rw [updateRow]
  simp only [updIf_subregion, ngFilter_map_updIf, gFilter_map_updIf,
    baTotals_map_updIf, relRatio_map_updIf, updIf_isGreen, setNew_updIf]

/-- Processing one authority on a partially processed frame extends the set
of processed authorities. -/
theorem processBA_map_updIf (h : RecHandler) (agg : String → ℚ)
    (df0 : List MixRow) (S : String → Prop) [DecidablePred S]
    (baa : String) :
    processBA h agg baa (df0.map (updIf h agg df0 S))
      = df0.map (updIf h agg df0 (fun x => S x ∨ x = baa)) := by
  rw [processBA_eq_map, List.map_map]
  refine List.map_congr_left (fun r _ => ?_)
  simp only [Function.comp_apply, updIf_subregion]
  by_cases hs : r.subregion = baa
  · rw [if_pos hs, updateRow_map_updIf]
    conv_rhs => rw [updIf]
    rw [if_pos (Or.inr hs)]
  · -- the row is untouched in this iteration
    rw [if_neg hs]
    conv_rhs => rw [updIf]
    conv_lhs => rw [updIf]
    by_cases hS : S r.subregion
    · rw [if_pos hS, if_pos (Or.inl hS)]
    · rw [if_neg hS, if_neg (by tauto)]

/-- The `update_mix` fold, characterised on partially processed frames. -/
theorem foldl_processBA (h : RecHandler) (agg : String → ℚ)
    (df0 : List MixRow) (us : List String)
    (S : String → Prop) [DecidablePred S] :
    us.foldl (fun acc baa => processBA h agg baa acc)
        (df0.map (updIf h agg df0 S))
      = df0.map (updIf h agg df0 (fun x => S x ∨ x ∈ us)) := by
  induction us generalizing S with
  | nil =>
      simp only [List.foldl_nil]
      refine List.map_congr_left (fun r _ => ?_)
      unfold updIf
      by_cases hS : S r.subregion
      · rw [if_pos hS, if_pos (by simp [hS])]
      · rw [if_neg hS, if_neg (by simp [hS])]
  | cons baa us ih =>
      rw [List.foldl_cons, processBA_map_updIf, ih]
      refine List.map_congr_left (fun r _ => ?_)
      unfold updIf
      by_cases hS : (S r.subregion ∨ r.subregion = baa) ∨ r.subregion ∈ us
      · rw [if_pos hS, if_pos (by simp at hS ⊢; tauto)]
      · rw [if_neg hS, if_neg (by simp at hS ⊢; tauto)]

/-- The `update_mix` fold from the unprocessed initial frame. -/
theorem foldl_processBA_nil (h : RecHandler) (agg : String → ℚ)
    (df0 : List MixRow) (us : List String) :
    us.foldl (fun acc baa => processBA h agg baa acc) df0
      = df0.map (updIf h agg df0 (fun x => x ∈ us)) := by
  have h0 : df0.map (updIf h agg df0 (fun _ => False)) = df0 := by
    refine (List.map_congr_left (fun r _ => ?_)).trans (List.map_id df0)
    unfold updIf
    rw [if_neg not_false]
    rfl
  have hf := foldl_processBA h agg df0 us (fun _ => False)
  rw [h0] at hf
  rw [hf]
  refine List.map_congr_left (fun r _ => ?_)
  unfold updIf
  by_cases hS : r.subregion ∈ us
  · rw [if_pos (Or.inr hS), if_pos hS]
  · rw [if_neg (by tauto), if_neg hS]

/-- Closed form of `update_mix`: every row of the initialized frame gets the
per-row update for its own authority. -/
theorem update_mix_eq_map (h : RecHandler) (agg : String → ℚ)
    (df : List MixRow) :
    update_mix h agg df
      = (df.map initRow).map
          (fun r => updateRow h agg (df.map initRow) r) := by
  unfold update_mix
  rw [foldl_processBA_nil]
  refine List.map_congr_left (fun r hr => ?_)
  unfold updIf
  rw [if_pos (List.mem_dedup.mpr (List.mem_map_of_mem MixRow.subregion hr))]

section PresMap

variable {f : MixRow → MixRow}

theorem ngFilter_map_pres (hsub : ∀ r, (f r).subregion = r.subregion)
    (hfuel : ∀ r, (f r).fuelCategory = r.fuelCategory)
    (baa : String) (df : List MixRow) :
    ngFilter baa (df.map f) = (ngFilter baa df).map f := by
  unfold ngFilter
  rw [List.filter_map]
  have hp : ((fun r => !isGreen r && r.subregion == baa) ∘ f)
      = fun r => !isGreen r && r.subregion == baa := by
    funext r
    simp [Function.comp, isGreen, hsub, hfuel]
  rw [hp]

theorem gFilter_map_pres (hsub : ∀ r, (f r).subregion = r.subregion)
    (hfuel : ∀ r, (f r).fuelCategory = r.fuelCategory)
    (baa : String) (df : List MixRow) :
    gFilter baa (df.map f) = (gFilter baa df).map f := by
  unfold gFilter
  rw [List.filter_map]
  have hp : ((fun r => isGreen r && r.subregion == baa) ∘ f)
      = fun r => isGreen r && r.subregion == baa := by
    funext r
    simp [Function.comp, isGreen, hsub, hfuel]
  rw [hp]

theorem relTotal_map_pres (helec : ∀ r, (f r).electricity = r.electricity)
    (l : List MixRow) :
    relTotal (l.map f) = relTotal l := by
  unfold relTotal
  rw [List.map_map]
  have hp : (MixRow.electricity ∘ f) = MixRow.electricity := by
    funext r
    simp [Function.comp, helec]
  rw [hp]

theorem relRatio_map_pres (helec : ∀ r, (f r).electricity = r.electricity)
    (l : List MixRow) (r : MixRow) :
    relRatio (l.map f) (f r) = relRatio l r := by
  unfold relRatio
  rw [relTotal_map_pres helec, helec]

theorem baTotals_map_pres (helec : ∀ r, (f r).electricity = r.electricity)
    (hfuel : ∀ r, (f r).fuelCategory = r.fuelCategory)
    (hba : ∀ r, (f r).baCode = r.baCode)
    (h : RecHandler) (agg : String → ℚ)
    (ng_df g_df : List MixRow) :
    baTotals h agg (ng_df.map f) (g_df.map f) = baTotals h agg ng_df g_df := by
  unfold baTotals
  rw [relTotal_map_pres helec, relTotal_map_pres helec, List.any_map]
  have hmt : (ng_df.map f).isEmpty = ng_df.isEmpty := by
    cases ng_df <;> simp
  have hp : ((fun r => OVERFLOW_E.contains r.fuelCategory) ∘ f)
      = fun r => OVERFLOW_E.contains r.fuelCategory := by
    funext r
    simp [Function.comp, hfuel]
  rw [hmt, hp]
  cases g_df with
  | nil => rfl
  | cons g0 gs =>
      simp only [List.map_cons, List.head?_cons, hba]

end PresMap

@[simp] theorem updateRow_isGreen (h : RecHandler) (agg : String → ℚ)
    (df : List MixRow) (r : MixRow) :
    isGreen (updateRow h agg df r) = isGreen r := by
  unfold isGreen
  rw [updateRow_fuelCategory]

@[simp] theorem initRow_isGreen (r : MixRow) : isGreen (initRow r) = isGreen r := rfl

/-- The green-group total `big_g` of an authority, read off the frame sent
to `update_mix`. -/
def bigG (baa : String) (df : List MixRow) : ℚ := relTotal (gFilter baa df)

/-- The non-green total `ng` of an authority. -/
def ngTotal (baa : String) (df : List MixRow) : ℚ := relTotal (ngFilter baa df)

/-- The REC total `rec_t` allocated to an authority (the `REC_FRAC` value
merged onto the green rows; `0` when the authority has no green rows, in
which case `update_mix` never reads it). -/
def recT (agg : String → ℚ) (baa : String) (df : List MixRow) : ℚ :=
  match (gFilter baa df).head? with
  | some g0 => agg g0.baCode
  | none => 0

/-- The non-REC green total `gx` of an authority. -/
def gxOf (h : RecHandler) (agg : String → ℚ) (baa : String)
    (df : List MixRow) : ℚ :=
  (baTotals h agg (ngFilter baa df) (gFilter baa df)).1

/-- The non-REC non-green total `ngx` of an authority. -/
def ngxOf (h : RecHandler) (agg : String → ℚ) (baa : String)
    (df : List MixRow) : ℚ :=
  (baTotals h agg (ngFilter baa df) (gFilter baa df)).2

/-- Green rows of an authority after `update_mix`, in closed form. -/
theorem update_mix_green_rows (h : RecHandler) (agg : String → ℚ)
    (df : List MixRow) (baa : String) :
    gFilter baa (update_mix h agg df)
      = (gFilter baa df).map (fun r =>
          setNew (relRatio (gFilter baa df) r * gxOf h agg baa df)
            (if 0 < gxOf h agg baa df + ngxOf h agg baa df then
              relRatio (gFilter baa df) r * gxOf h agg baa df
                / (gxOf h agg baa df + ngxOf h agg baa df)
            else 0) r) := by
  rw [update_mix_eq_map]
  rw [gFilter_map_pres (updateRow_subregion h agg (df.map initRow))
    (updateRow_fuelCategory h agg (df.map initRow))]
  rw [gFilter_map_pres initRow_subregion initRow_fuelCategory]
  rw [List.map_map]
  refine List.map_congr_left (fun r hr => ?_)
  have hmem := List.mem_filter.mp hr
  have hcond := hmem.2
  simp only [Bool.and_eq_true, beq_iff_eq] at hcond
  obtain ⟨hgreen, hsubr⟩ := hcond
  simp only [Function.comp_apply]
  unfold updateRow
  simp only [initRow_subregion, hsubr, initRow_isGreen, hgreen, if_true,
    ngFilter_map_pres initRow_subregion initRow_fuelCategory,
    gFilter_map_pres initRow_subregion initRow_fuelCategory,
    baTotals_map_pres initRow_electricity initRow_fuelCategory initRow_baCode,
    relRatio_map_pres initRow_electricity, setNew_initRow]
  rfl

/-- Non-green rows of an authority after `update_mix`, in closed form. -/
theorem update_mix_ng_rows (h : RecHandler) (agg : String → ℚ)
    (df : List MixRow) (baa : String) :
    ngFilter baa (update_mix h agg df)
      = (ngFilter baa df).map (fun r =>
          setNew (relRatio (ngFilter baa df) r * ngxOf h agg baa df)
            (if 0 < gxOf h agg baa df + ngxOf h agg baa df then
              relRatio (ngFilter baa df) r * ngxOf h agg baa df
                / (gxOf h agg baa df + ngxOf h agg baa df)
            else 0) r) := by
  rw [update_mix_eq_map]
  rw [ngFilter_map_pres (updateRow_subregion h agg (df.map initRow))
    (updateRow_fuelCategory h agg (df.map initRow))]
  rw [ngFilter_map_pres initRow_subregion initRow_fuelCategory]
  rw [List.map_map]
  refine List.map_congr_left (fun r hr => ?_)
  have hmem := List.mem_filter.mp hr
  have hcond := hmem.2
  simp only [Bool.and_eq_true, beq_iff_eq, Bool.not_eq_true'] at hcond
  obtain ⟨hgreen, hsubr⟩ := hcond
  simp only [Function.comp_apply]
  unfold updateRow
  simp only [initRow_subregion, hsubr, initRow_isGreen, hgreen,
    Bool.false_eq_true, if_false,
    ngFilter_map_pres initRow_subregion initRow_fuelCategory,
    gFilter_map_pres initRow_subregion initRow_fuelCategory,
    baTotals_map_pres initRow_electricity initRow_fuelCategory initRow_baCode,
    relRatio_map_pres initRow_electricity, setNew_initRow]
  rfl

/-- Sums of `Relative_Ratio * c` over a group: `c` when the group total is
non-zero, `0` when the total vanishes (recall `x / 0 = 0` in `ℚ`). -/
theorem sum_map_relRatio_mul (l : List MixRow) (c : ℚ) :
    ((l.map (fun r => relRatio l r * c)).sum)
      = if relTotal l = 0 then 0 else c := by
  by_cases hT : relTotal l = 0
  · rw [if_pos hT]
    have hz : ∀ r ∈ l, relRatio l r * c = (fun _ : MixRow => (0:ℚ)) r := by
      intro r _
      unfold relRatio
      rw [hT, div_zero, zero_mul]
    rw [List.map_congr_left hz]
    simp
  · rw [if_neg hT]
    have hrw : ∀ r ∈ l,
        relRatio l r * c
          = (fun s : MixRow => s.electricity * (c / relTotal l)) r := by
      intro r _
      unfold relRatio
      rw [div_mul_eq_mul_div, mul_div_assoc]
    rw [List.map_congr_left hrw, List.sum_map_mul_right]
    show relTotal l * (c / relTotal l) = c
    field_simp

theorem relTotal_nonneg (l : List MixRow)
    (h : ∀ r ∈ l, 0 ≤ r.electricity) : 0 ≤ relTotal l := by
  refine List.sum_nonneg ?_
  intro x hx
  obtain ⟨r, hr, rfl⟩ := List.mem_map.mp hx
  exact h r hr

theorem electricity_eq_zero_of_relTotal_eq_zero (l : List MixRow)
    (h : ∀ r ∈ l, 0 ≤ r.electricity) (hT : relTotal l = 0) :
    ∀ r ∈ l, r.electricity = 0 := by
  induction l with
  | nil => intro r hr; cases hr
  | cons a as ih =>
      have ha : 0 ≤ a.electricity := h a (List.mem_cons_self a as)
      have has : 0 ≤ relTotal as :=
        relTotal_nonneg as (fun r hr => h r (List.mem_cons_of_mem a hr))
      have hsum : a.electricity + relTotal as = 0 := by
        unfold relTotal at hT ⊢
        simpa using hT
      have haz : a.electricity = 0 := by linarith
      intro r hr
      rcases List.mem_cons.mp hr with rfl | hr'
      · exact haz
      · exact ih (fun s hs => h s (List.mem_cons_of_mem a hs))
          (by linarith) r hr'

/-- The rows of an authority split into the green and non-green groups:
summing any projection over them adds up. -/
theorem sum_filter_split (df : List MixRow) (baa : String)
    (v : MixRow → ℚ) :
    ((df.filter (fun r => r.subregion == baa)).map v).sum
      = ((gFilter baa df).map v).sum + ((ngFilter baa df).map v).sum := by
  induction df with
  | nil => simp [gFilter, ngFilter]
  | cons r rs ih =>
      unfold gFilter ngFilter at ih ⊢
      by_cases hs : r.subregion == baa <;> by_cases hg : isGreen r <;>
        simp [List.filter_cons, hs, hg, ih] <;> ring

/-- Membership in an authority's rows splits into the two groups. -/
theorem mem_filter_subregion_iff (df : List MixRow) (baa : String)
    (r : MixRow) :
    r ∈ df.filter (fun r => r.subregion == baa)
      ↔ r ∈ gFilter baa df ∨ r ∈ ngFilter baa df := by
  unfold gFilter ngFilter
  simp only [List.mem_filter, Bool.and_eq_true, Bool.not_eq_true']
  by_cases hg : isGreen r <;> simp [hg]

/-- `ng` as computed in `update_mix` equals the non-green `Relative_Total`
(the `isEmpty` guard is redundant because `relTotal [] = 0`). -/
theorem ng_if_eq (l : List MixRow) :
    (if l.isEmpty then (0:ℚ) else relTotal l) = relTotal l := by
  cases l <;> simp [relTotal]

/-- `has_ofe` in `update_mix`: some non-green fuel of the authority is an
overflow category. -/
def hasOFE (baa : String) (df : List MixRow) : Bool :=
  (ngFilter baa df).any (fun r => OVERFLOW_E.contains r.fuelCategory)

/-- `(gx, ngx)` when the authority has negative green generation
(`rec_t > big_g`). -/
theorem baTotals_of_lt (h : RecHandler) (agg : String → ℚ)
    (baa : String) (df : List MixRow)
    (hneg : bigG baa df < recT agg baa df) :
    gxOf h agg baa df = 0
      ∧ ngxOf h agg baa df
          = (if h = RecHandler.keep ∧ hasOFE baa df then
              max 0 (ngTotal baa df - (recT agg baa df - bigG baa df))
            else ngTotal baa df) := by
  cases hgd : (gFilter baa df).head? with
  | none =>
      exfalso
      have hnil : gFilter baa df = [] := by
        cases hq : gFilter baa df with
        | nil => rfl
        | cons a as => rw [hq] at hgd; cases hgd
      rw [bigG, recT, hnil] at hneg
      simp [relTotal] at hneg
  | some g0 =>
      have hrec : recT agg baa df = agg g0.baCode := by
        rw [recT, hgd]
      unfold gxOf ngxOf baTotals
      rw [hgd]
      simp only [ng_if_eq]
      rw [if_pos (by rw [← hrec]; exact (by rw [bigG] at hneg; exact hneg))]
      unfold hasOFE ngTotal bigG
      rw [← hrec]
      by_cases hk : h = RecHandler.keep
        ∧ (ngFilter baa df).any (fun r => OVERFLOW_E.contains r.fuelCategory)
          = true
      · rw [if_pos hk, if_pos hk]
        exact ⟨rfl, rfl⟩
      · rw [if_neg hk, if_neg hk]
        exact ⟨rfl, rfl⟩

/-- `(gx, ngx)` when the authority's REC total is covered by its green
generation (`rec_t ≤ big_g`). -/
theorem baTotals_of_le (h : RecHandler) (agg : String → ℚ)
    (baa : String) (df : List MixRow)
    (hle : recT agg baa df ≤ bigG baa df) :
    gxOf h agg baa df = bigG baa df - recT agg baa df
      ∧ ngxOf h agg baa df = ngTotal baa df := by
  cases hgd : (gFilter baa df).head? with
  | none =>
      have hnil : gFilter baa df = [] := by
        cases hq : gFilter baa df with
        | nil => rfl
        | cons a as => rw [hq] at hgd; cases hgd
      unfold gxOf ngxOf baTotals
      rw [hgd]
      simp only [ng_if_eq]
      constructor
      · rw [bigG, recT, hnil]
        simp [relTotal]
      · rfl
  | some g0 =>
      have hrec : recT agg baa df = agg g0.baCode := by
        rw [recT, hgd]
      unfold gxOf ngxOf baTotals
      rw [hgd]
      simp only [ng_if_eq]
      rw [if_neg (by rw [← hrec, bigG] at *; exact not_lt.mpr hle)]
      unfold ngTotal bigG
      rw [← hrec]
      exact ⟨rfl, rfl⟩

/-- Rows of one authority, as a data frame filter. -/
def baRowsOf (baa : String) (df : List MixRow) : List MixRow :=
  df.filter (fun r => r.subregion == baa)

/-- When `ngx` equals the non-green total, the non-green rows keep their
original electricity amounts (given non-negative generation). -/
theorem ngRows_unchanged (h : RecHandler) (agg : String → ℚ)
    (df : List MixRow) (baa : String)
    (hpos : ∀ r ∈ df, 0 ≤ r.electricity)
    (hng : ngxOf h agg baa df = ngTotal baa df) :
    ∀ r ∈ ngFilter baa (update_mix h agg df),
      r.electricityNew = r.electricity := by
  intro r' hr'
  rw [update_mix_ng_rows] at hr'
  obtain ⟨r, hr, rfl⟩ := List.mem_map.mp hr'
  rw [setNew_electricityNew, setNew_electricity, hng]
  by_cases hT : relTotal (ngFilter baa df) = 0
  · have he : r.electricity = 0 :=
      electricity_eq_zero_of_relTotal_eq_zero (ngFilter baa df)
        (fun s hs => hpos s (List.mem_filter.mp hs).1) hT r hr
    rw [relRatio, hT, div_zero, zero_mul, he]
  · rw [relRatio, ngTotal, div_mul_cancel₀ _ hT]

/-- `gx = 0` whenever the green total vanishes (with a non-negative REC
allocation). -/
theorem gxOf_eq_zero_of_g_total_eq_zero (h : RecHandler) (agg : String → ℚ)
    (baa : String) (df : List MixRow)
    (hrec0 : 0 ≤ recT agg baa df)
    (hG : relTotal (gFilter baa df) = 0) :
    gxOf h agg baa df = 0 := by
  have hbG : bigG baa df = 0 := hG
  by_cases hlt : bigG baa df < recT agg baa df
  · exact (baTotals_of_lt h agg baa df hlt).1
  · have hle := not_lt.mp hlt
    rw [(baTotals_of_le h agg baa df hle).1, hbG]
    have h0 : recT agg baa df = 0 := by
      rw [hbG] at hle
      exact le_antisymm hle hrec0
    rw [h0, sub_zero]

/-- `ngx = 0` whenever the non-green total vanishes. -/
theorem ngxOf_eq_zero_of_ng_total_eq_zero (h : RecHandler)
    (agg : String → ℚ) (baa : String) (df : List MixRow)
    (hNG : relTotal (ngFilter baa df) = 0) :
    ngxOf h agg baa df = 0 := by
  have hnT : ngTotal baa df = 0 := hNG
  by_cases hlt : bigG baa df < recT agg baa df
  · rw [(baTotals_of_lt h agg baa df hlt).2, hnT]
    split
    · exact max_eq_left (by linarith)
    · rfl
  · rw [(baTotals_of_le h agg baa df (not_lt.mp hlt)).2, hnT]

/-- Concrete REC aggregate for the C1 counterexample: 8 MWh of RECs. -/
def cexAgg : String → ℚ := fun _ => 8

/-- Concrete generation-mix frame for the C1 counterexample: one authority
with 10 MWh of coal and 5 MWh of wind, and no overflow fuel category. -/
def cexDf : List MixRow :=
  [ { subregion := "BA1", baCode := "BA1", fuelCategory := "COAL",
      electricity := 10, generationRatio := 0,
      electricityNew := 0, genRatioNew := 0 },
    { subregion := "BA1", baCode := "BA1", fuelCategory := "WIND",
      electricity := 5, generationRatio := 0,
      electricityNew := 0, genRatioNew := 0 } ]

/-- C1, counterexample to the claim as stated: for the authority `BA1` of
`cexDf`, the REC total (8) exceeds the green total (5), yet with
`rec_handler='keep'` the non-renewable generation total is NOT reduced by
the excess (it stays 10 rather than the claimed `max 0 (10 - 3) = 7`),
because no non-green fuel of the authority is in `OVERFLOW_E`. -/
theorem C1_counterexample :
    bigG "BA1" cexDf < recT cexAgg "BA1" cexDf
    ∧ ¬ (((ngFilter "BA1" (update_mix RecHandler.keep cexAgg cexDf)).map
            MixRow.electricityNew).sum
          = max 0 (ngTotal "BA1" cexDf
              - (recT cexAgg "BA1" cexDf - bigG "BA1" cexDf))) := by
  have hgf : gFilter "BA1" cexDf
      = [{ subregion := "BA1", baCode := "BA1", fuelCategory := "WIND",
           electricity := 5, generationRatio := 0,
           electricityNew := 0, genRatioNew := 0 }] := rfl
  have hnf : ngFilter "BA1" cexDf
      = [{ subregion := "BA1", baCode := "BA1", fuelCategory := "COAL",
           electricity := 10, generationRatio := 0,
           electricityNew := 0, genRatioNew := 0 }] := rfl
  have hrec : recT cexAgg "BA1" cexDf = 8 := rfl
  have hbigG : bigG "BA1" cexDf = 5 := by
    rw [bigG, hgf]
    simp [relTotal]
  have hngT : ngTotal "BA1" cexDf = 10 := by
    rw [ngTotal, hnf]
    simp [relTotal]
  have hofe : hasOFE "BA1" cexDf = false := rfl
  have hlt : bigG "BA1" cexDf < recT cexAgg "BA1" cexDf := by
    rw [hbigG, hrec]
    norm_num
  refine ⟨hlt, ?_⟩
  obtain ⟨hgx, hngx⟩ :=
    baTotals_of_lt RecHandler.keep cexAgg "BA1" cexDf hlt
  have hngx10 : ngxOf RecHandler.keep cexAgg "BA1" cexDf = 10 := by
    rw [hngx, if_neg (by simp [hofe]), hngT]
  rw [update_mix_ng_rows, hnf, hngT, hrec, hbigG, hngx10, List.map_map]
  simp only [List.map_cons, List.map_nil, Function.comp_apply,
    setNew_electricityNew, List.sum_cons, List.sum_nil]
  rw [max_eq_right (by norm_num : (0:ℚ) ≤ 10 - (8 - 5))]
  norm_num [relRatio, relTotal]

/-- C1 (amended): for an authority whose allocated REC generation `rec_t`
exceeds its green generation total `big_g`, `update_mix` zeroes the
renewable categories' new generation under both policies; with
`rec_handler='zero'` — and likewise with `rec_handler='keep'` when the
authority has no overflow (`MIXED`/`OTHF`) non-renewable category — the
non-renewable amounts are left unchanged; with `rec_handler='keep'` and an
overflow category present, the excess `rec_t - big_g` is subtracted from
the non-renewable generation total, floored at zero. -/
theorem C1_update_mix_negative_green_policy (h : RecHandler)
    (agg : String → ℚ) (df : List MixRow) (baa : String)
    (hpos : ∀ r ∈ df, 0 ≤ r.electricity)
    (hneg : bigG baa df < recT agg baa df) :
    (∀ r ∈ gFilter baa (update_mix h agg df), r.electricityNew = 0)
    ∧ ((h = RecHandler.zero ∨ hasOFE baa df = false) →
        ∀ r ∈ ngFilter baa (update_mix h agg df),
          r.electricityNew = r.electricity)
    ∧ (h = RecHandler.keep → hasOFE baa df = true →
        ((ngFilter baa (update_mix h agg df)).map MixRow.electricityNew).sum
          = max 0 (ngTotal baa df
              - (recT agg baa df - bigG baa df))) := by
  obtain ⟨hgx, hngx⟩ := baTotals_of_lt h agg baa df hneg
  refine ⟨?_, ?_, ?_⟩
  · intro r' hr'
    rw [update_mix_green_rows] at hr'
    obtain ⟨r, _, rfl⟩ := List.mem_map.mp hr'
    rw [setNew_electricityNew, hgx, mul_zero]
  · intro hcase
    refine ngRows_unchanged h agg df baa hpos ?_
    rw [hngx, if_neg]
    rintro ⟨hk, hofe⟩
    rcases hcase with hz | hofe'
    · rw [hz] at hk; cases hk
    · rw [hofe'] at hofe; cases hofe
  · intro hk hofe
    rw [update_mix_ng_rows, List.map_map]
    have hcomp : (MixRow.electricityNew ∘ fun r =>
        setNew (relRatio (ngFilter baa df) r * ngxOf h agg baa df)
          (if 0 < gxOf h agg baa df + ngxOf h agg baa df then
            relRatio (ngFilter baa df) r * ngxOf h agg baa df
              / (gxOf h agg baa df + ngxOf h agg baa df)
          else 0) r)
        = fun r => relRatio (ngFilter baa df) r * ngxOf h agg baa df := by
      funext r
      simp [Function.comp]
    rw [hcomp, sum_map_relRatio_mul]
    have hng : ngxOf h agg baa df
        = max 0 (ngTotal baa df - (recT agg baa df - bigG baa df)) := by
      rw [hngx, if_pos ⟨hk, hofe⟩]
    by_cases hT : relTotal (ngFilter baa df) = 0
    · rw [if_pos hT, ngTotal, hT]
      exact (max_eq_left (by linarith)).symm
    · rw [if_neg hT]
      exact hng

/-- Witness for C1 (amended) at the concrete frame `cexDf` with the `zero`
policy: the hypotheses hold and the wind row is zeroed. -/
theorem C1_witness :
    ((∀ r ∈ cexDf, 0 ≤ r.electricity)
      ∧ bigG "BA1" cexDf < recT cexAgg "BA1" cexDf)
    ∧ (∀ r ∈ gFilter "BA1" (update_mix RecHandler.zero cexAgg cexDf),
        r.electricityNew = 0) := by
  have hgf : gFilter "BA1" cexDf
      = [{ subregion := "BA1", baCode := "BA1", fuelCategory := "WIND",
           electricity := 5, generationRatio := 0,
           electricityNew := 0, genRatioNew := 0 }] := rfl
  have hrec : recT cexAgg "BA1" cexDf = 8 := rfl
  have hbigG : bigG "BA1" cexDf = 5 := by
    rw [bigG, hgf]
    simp [relTotal]
  have hlt : bigG "BA1" cexDf < recT cexAgg "BA1" cexDf := by
    rw [hbigG, hrec]
    norm_num
  have hpos : ∀ r ∈ cexDf, 0 ≤ r.electricity := by decide
  exact ⟨⟨hpos, hlt⟩,
    (C1_update_mix_negative_green_policy RecHandler.zero cexAgg cexDf "BA1"
      hpos hlt).1⟩

/-- Concrete REC aggregate for the C3 witness: 3 MWh of RECs (covered by
the 5 MWh of wind in `cexDf`). -/
def cexAggSmall : String → ℚ := fun _ => 3

/-- C3: for an authority whose REC allocation `rec_t` is covered by its
green generation total, `update_mix` removes exactly `rec_t`: the total
new electricity equals the old total minus `rec_t`, green rows shed
`rec_t` in proportion to their share of green generation, and non-green
rows are unchanged. -/
theorem C3_update_mix_removes_rec_total (h : RecHandler)
    (agg : String → ℚ) (df : List MixRow) (baa : String)
    (hpos : ∀ r ∈ df, 0 ≤ r.electricity)
    (hrec0 : 0 ≤ recT agg baa df)
    (hle : recT agg baa df ≤ bigG baa df) :
    (((baRowsOf baa (update_mix h agg df)).map MixRow.electricityNew).sum
        = ((baRowsOf baa df).map MixRow.electricity).sum - recT agg baa df)
    ∧ (∀ r ∈ gFilter baa (update_mix h agg df),
        r.electricityNew
          = r.electricity - recT agg baa df * (r.electricity / bigG baa df))
    ∧ (∀ r ∈ ngFilter baa (update_mix h agg df),
        r.electricityNew = r.electricity) := by
  obtain ⟨hgx, hngx⟩ := baTotals_of_le h agg baa df hle
  refine ⟨?_, ?_, ?_⟩
  · -- total: old sum minus rec_t
    rw [baRowsOf, baRowsOf, sum_filter_split, sum_filter_split,
      update_mix_green_rows, update_mix_ng_rows, List.map_map, List.map_map]
    have hcg : (MixRow.electricityNew ∘ fun r =>
        setNew (relRatio (gFilter baa df) r * gxOf h agg baa df)
          (if 0 < gxOf h agg baa df + ngxOf h agg baa df then
            relRatio (gFilter baa df) r * gxOf h agg baa df
              / (gxOf h agg baa df + ngxOf h agg baa df)
          else 0) r)
        = fun r => relRatio (gFilter baa df) r * gxOf h agg baa df := by
      funext r
      simp [Function.comp]
    have hcn : (MixRow.electricityNew ∘ fun r =>
        setNew (relRatio (ngFilter baa df) r * ngxOf h agg baa df)
          (if 0 < gxOf h agg baa df + ngxOf h agg baa df then
            relRatio (ngFilter baa df) r * ngxOf h agg baa df
              / (gxOf h agg baa df + ngxOf h agg baa df)
          else 0) r)
        = fun r => relRatio (ngFilter baa df) r * ngxOf h agg baa df := by
      funext r
      simp [Function.comp]
    rw [hcg, hcn, sum_map_relRatio_mul, sum_map_relRatio_mul]
    have e1 : (if relTotal (gFilter baa df) = 0 then (0:ℚ)
        else gxOf h agg baa df) = bigG baa df - recT agg baa df := by
      split
      · rename_i hG
        have hbG : bigG baa df = 0 := hG
        have h0 : recT agg baa df = 0 := by
          rw [hbG] at hle
          exact le_antisymm hle hrec0
        rw [hbG, h0, sub_zero]
      · rw [hgx]
    have e2 : (if relTotal (ngFilter baa df) = 0 then (0:ℚ)
        else ngxOf h agg baa df) = ngTotal baa df := by
      split
      · rename_i hNG
        have hnT : ngTotal baa df = 0 := hNG
        rw [hnT]
      · rw [hngx]
    rw [e1, e2]
    have hbg : ((gFilter baa df).map MixRow.electricity).sum
        = bigG baa df := rfl
    have hng : ((ngFilter baa df).map MixRow.electricity).sum
        = ngTotal baa df := rfl
    rw [hbg, hng]
    ring
  · -- green rows: proportional reduction
    intro r' hr'
    rw [update_mix_green_rows] at hr'
    obtain ⟨r, hr, rfl⟩ := List.mem_map.mp hr'
    rw [setNew_electricityNew, setNew_electricity, hgx]
    by_cases hG : relTotal (gFilter baa df) = 0
    · have hbG : bigG baa df = 0 := hG
      have h0 : recT agg baa df = 0 := by
        rw [hbG] at hle
        exact le_antisymm hle hrec0
      have he : r.electricity = 0 :=
        electricity_eq_zero_of_relTotal_eq_zero (gFilter baa df)
          (fun s hs => hpos s (List.mem_filter.mp hs).1) hG r hr
      rw [relRatio, hG, div_zero, zero_mul, he, h0]
      ring
    · have hbG : bigG baa df ≠ 0 := hG
      rw [relRatio]
      have : relTotal (gFilter baa df) = bigG baa df := rfl
      rw [this]
      field_simp
      ring
  · -- non-green rows unchanged
    exact ngRows_unchanged h agg df baa hpos hngx

/-- Witness for C3 at `cexDf` with a REC allocation of 3 MWh. -/
theorem C3_witness :
    ((∀ r ∈ cexDf, 0 ≤ r.electricity)
      ∧ 0 ≤ recT cexAggSmall "BA1" cexDf
      ∧ recT cexAggSmall "BA1" cexDf ≤ bigG "BA1" cexDf)
    ∧ ((baRowsOf "BA1"
          (update_mix RecHandler.zero cexAggSmall cexDf)).map
            MixRow.electricityNew).sum
        = ((baRowsOf "BA1" cexDf).map MixRow.electricity).sum
            - recT cexAggSmall "BA1" cexDf := by
  have hgf : gFilter "BA1" cexDf
      = [{ subregion := "BA1", baCode := "BA1", fuelCategory := "WIND",
           electricity := 5, generationRatio := 0,
           electricityNew := 0, genRatioNew := 0 }] := rfl
  have hrec : recT cexAggSmall "BA1" cexDf = 3 := rfl
  have hbigG : bigG "BA1" cexDf = 5 := by
    rw [bigG, hgf]
    simp [relTotal]
  have hpos : ∀ r ∈ cexDf, 0 ≤ r.electricity := by decide
  have hrec0 : 0 ≤ recT cexAggSmall "BA1" cexDf := by
    rw [hrec]
    norm_num
  have hle : recT cexAggSmall "BA1" cexDf ≤ bigG "BA1" cexDf := by
    rw [hrec, hbigG]
    norm_num
  exact ⟨⟨hpos, hrec0, hle⟩,
    (C3_update_mix_removes_rec_total RecHandler.zero cexAggSmall cexDf "BA1"
      hpos hrec0 hle).1⟩

/-- C2: after `update_mix`, the new generation ratios of an authority sum
to one when the non-REC total `gx + ngx` is positive, and all vanish when
that total is zero (for a non-negative REC allocation). -/
theorem C2_update_mix_ratios_sum_to_one (h : RecHandler)
    (agg : String → ℚ) (df : List MixRow) (baa : String)
    (hrec0 : 0 ≤ recT agg baa df) :
    (0 < gxOf h agg baa df + ngxOf h agg baa df →
      ((baRowsOf baa (update_mix h agg df)).map MixRow.genRatioNew).sum = 1)
    ∧ (gxOf h agg baa df + ngxOf h agg baa df = 0 →
      ∀ r ∈ baRowsOf baa (update_mix h agg df), r.genRatioNew = 0) := by
  constructor
  · intro hposRec
    rw [baRowsOf, sum_filter_split, update_mix_green_rows,
      update_mix_ng_rows, List.map_map, List.map_map]
    have hcg : (MixRow.genRatioNew ∘ fun r =>
        setNew (relRatio (gFilter baa df) r * gxOf h agg baa df)
          (if 0 < gxOf h agg baa df + ngxOf h agg baa df then
            relRatio (gFilter baa df) r * gxOf h agg baa df
              / (gxOf h agg baa df + ngxOf h agg baa df)
          else 0) r)
        = fun r => relRatio (gFilter baa df) r
            * (gxOf h agg baa df
                / (gxOf h agg baa df + ngxOf h agg baa df)) := by
      funext r
      simp only [Function.comp_apply, setNew_genRatioNew, if_pos hposRec]
      rw [mul_div_assoc]
    have hcn : (MixRow.genRatioNew ∘ fun r =>
        setNew (relRatio (ngFilter baa df) r * ngxOf h agg baa df)
          (if 0 < gxOf h agg baa df + ngxOf h agg baa df then
            relRatio (ngFilter baa df) r * ngxOf h agg baa df
              / (gxOf h agg baa df + ngxOf h agg baa df)
          else 0) r)
        = fun r => relRatio (ngFilter baa df) r
            * (ngxOf h agg baa df
                / (gxOf h agg baa df + ngxOf h agg baa df)) := by
      funext r
      simp only [Function.comp_apply, setNew_genRatioNew, if_pos hposRec]
      rw [mul_div_assoc]
    rw [hcg, hcn, sum_map_relRatio_mul, sum_map_relRatio_mul]
    have hne : gxOf h agg baa df + ngxOf h agg baa df ≠ 0 :=
      ne_of_gt hposRec
    have e1 : (if relTotal (gFilter baa df) = 0 then (0:ℚ)
        else gxOf h agg baa df / (gxOf h agg baa df + ngxOf h agg baa df))
        = gxOf h agg baa df / (gxOf h agg baa df + ngxOf h agg baa df) := by
      split
      · rename_i hG
        rw [gxOf_eq_zero_of_g_total_eq_zero h agg baa df hrec0 hG, zero_div]
      · rfl
    have e2 : (if relTotal (ngFilter baa df) = 0 then (0:ℚ)
        else ngxOf h agg baa df / (gxOf h agg baa df + ngxOf h agg baa df))
        = ngxOf h agg baa df / (gxOf h agg baa df + ngxOf h agg baa df) := by
      split
      · rename_i hNG
        rw [ngxOf_eq_zero_of_ng_total_eq_zero h agg baa df hNG, zero_div]
      · rfl
    rw [e1, e2, div_add_div_same, div_self hne]
  · intro hzero r' hr'
    rw [baRowsOf] at hr'
    rcases (mem_filter_subregion_iff _ baa r').mp hr' with hg | hn
    · rw [update_mix_green_rows] at hg
      obtain ⟨r, _, rfl⟩ := List.mem_map.mp hg
      rw [setNew_genRatioNew, if_neg (by rw [hzero]; exact lt_irrefl 0)]
    · rw [update_mix_ng_rows] at hn
      obtain ⟨r, _, rfl⟩ := List.mem_map.mp hn
      rw [setNew_genRatioNew, if_neg (by rw [hzero]; exact lt_irrefl 0)]

/-- Witness for C2 at `cexDf` with a REC allocation of 3 MWh: the non-REC
total is `2 + 10 > 0` and the new ratios sum to one. -/
theorem C2_witness :
    (0 ≤ recT cexAggSmall "BA1" cexDf
      ∧ 0 < gxOf RecHandler.zero cexAggSmall "BA1" cexDf
          + ngxOf RecHandler.zero cexAggSmall "BA1" cexDf)
    ∧ ((baRowsOf "BA1"
          (update_mix RecHandler.zero cexAggSmall cexDf)).map
            MixRow.genRatioNew).sum = 1 := by
  have hgf : gFilter "BA1" cexDf
      = [{ subregion := "BA1", baCode := "BA1", fuelCategory := "WIND",
           electricity := 5, generationRatio := 0,
           electricityNew := 0, genRatioNew := 0 }] := rfl
  have hnf : ngFilter "BA1" cexDf
      = [{ subregion := "BA1", baCode := "BA1", fuelCategory := "COAL",
           electricity := 10, generationRatio := 0,
           electricityNew := 0, genRatioNew := 0 }] := rfl
  have hrec : recT cexAggSmall "BA1" cexDf = 3 := rfl
  have hbigG : bigG "BA1" cexDf = 5 := by
    rw [bigG, hgf]
    simp [relTotal]
  have hngT : ngTotal "BA1" cexDf = 10 := by
    rw [ngTotal, hnf]
    simp [relTotal]
  have hrec0 : 0 ≤ recT cexAggSmall "BA1" cexDf := by
    rw [hrec]
    norm_num
  have hle : recT cexAggSmall "BA1" cexDf ≤ bigG "BA1" cexDf := by
    rw [hrec, hbigG]
    norm_num
  obtain ⟨hgx, hngx⟩ :=
    baTotals_of_le RecHandler.zero cexAggSmall "BA1" cexDf hle
  have hpos : 0 < gxOf RecHandler.zero cexAggSmall "BA1" cexDf
      + ngxOf RecHandler.zero cexAggSmall "BA1" cexDf := by
    rw [hgx, hngx, hbigG, hrec, hngT]
    norm_num
  exact ⟨⟨hrec0, hpos⟩,
    (C2_update_mix_ratios_sum_to_one RecHandler.zero cexAggSmall cexDf "BA1"
      hrec0).1 hpos⟩

/-- `linear_search` from `elci_to_rem.py`: backwards scan
`for i in range(len(lst) - 1, -1, -1)`, returning the first index from the
top whose element is `<= target`, else `-1`.  `linearSearchAux lst t k`
scans indices `k-1, k-2, ..., 0`. -/
def linearSearchAux (lst : List Int) (target : Int) : Nat → Int
  | 0 => -1
  | k+1 => if lst.getD k 0 ≤ target then (k : Int) else
      linearSearchAux lst target k

/-- `linear_search(lst, target)` from `elci_to_rem.py`. -/
def linear_search (lst : List Int) (target : Int) : Int :=
  linearSearchAux lst target lst.length

/-- `STEWI_DATA_VINTAGES` from `get_stewi_invent_years`
(`elci_to_rem.py`), with the two `range` comprehensions expanded. -/
def STEWI_DATA_VINTAGES : List (String × List Int) :=
  [("eGRID", [2014, 2016, 2018, 2019, 2020, 2021]),
   ("NEI", [2011, 2014, 2017, 2020]),
   ("RCRAInfo", [2011, 2013, 2015, 2017, 2019, 2021]),
   ("TRI", [2011, 2012, 2013, 2014, 2015, 2016, 2017, 2018, 2019, 2020,
            2021, 2022])]

/-- `get_stewi_invent_years` from `elci_to_rem.py`: for each inventory,
keep the vintage found by `linear_search` unless the search returns `-1`. -/
def get_stewi_invent_years (year : Int) : List (String × Int) :=
  STEWI_DATA_VINTAGES.filterMap (fun kv =>
    let y_idx := linear_search kv.2 year
    if y_idx ≠ -1 then some (kv.1, kv.2.getD y_idx.toNat 0) else none)

theorem linearSearchAux_eq_neg_one_iff (lst : List Int) (t : Int) :
    ∀ k : Nat, linearSearchAux lst t k = -1
      ↔ ∀ j : Nat, j < k → t < lst.getD j 0 := by
  intro k
  induction k with
  | zero => simp [linearSearchAux]
  | succ k ih =>
      by_cases hk : lst.getD k 0 ≤ t
      · simp only [linearSearchAux, if_pos hk]
        constructor
        · intro hco
          exfalso
          omega
        · intro hall
          exact absurd hk (not_le.mpr (hall k (Nat.lt_succ_self k)))
      · simp only [linearSearchAux, if_neg hk, ih]
        constructor
        · intro hall j hj
          rcases Nat.lt_succ_iff_lt_or_eq.mp hj with hj' | rfl
          · exact hall j hj'
          · exact not_le.mp hk
        · intro hall j hj
          exact hall j (Nat.lt_succ_of_lt hj)

theorem linearSearchAux_eq_coe (lst : List Int) (t : Int) :
    ∀ k i : Nat, linearSearchAux lst t k = (i : Int) →
      i < k ∧ lst.getD i 0 ≤ t
        ∧ ∀ j : Nat, i < j → j < k → t < lst.getD j 0 := by
  intro k
  induction k with
  | zero =>
      intro i hi
      exfalso
      rw [show linearSearchAux lst t 0 = -1 from rfl] at hi
      omega
  | succ k ih =>
      intro i hi
      by_cases hk : lst.getD k 0 ≤ t
      · simp only [linearSearchAux, if_pos hk] at hi
        have hik : i = k := by omega
        subst hik
        exact ⟨Nat.lt_succ_self i, hk, fun j hji hjk => by omega⟩
      · simp only [linearSearchAux, if_neg hk] at hi
        obtain ⟨h1, h2, h3⟩ := ih i hi
        refine ⟨Nat.lt_succ_of_lt h1, h2, fun j hji hjk => ?_⟩
        rcases Nat.lt_succ_iff_lt_or_eq.mp hjk with hj' | rfl
        · exact h3 j hji hj'
        · exact not_le.mp hk

/-- The backwards scan returns `-1` or a valid natural index. -/
theorem linearSearchAux_cases (lst : List Int) (t : Int) :
    ∀ k : Nat, linearSearchAux lst t k = -1
      ∨ ∃ i : Nat, linearSearchAux lst t k = (i : Int) := by
  intro k
  induction k with
  | zero => left; rfl
  | succ k ih =>
      by_cases hk : lst.getD k 0 ≤ t
      · right
        refine ⟨k, ?_⟩
        simp only [linearSearchAux]
        rw [if_pos hk]
      · simp only [linearSearchAux]
        rw [if_neg hk]
        exact ih

/-- On a sorted list, a non-`-1` result of `linear_search` picks out
exactly the largest element not exceeding the target. -/
theorem linear_search_max_value (vs : List Int) (t : Int)
    (hs : vs.Sorted (· ≤ ·)) (y : Int) :
    (linear_search vs t ≠ -1
        ∧ vs.getD (linear_search vs t).toNat 0 = y)
      ↔ (y ∈ vs ∧ y ≤ t ∧ ∀ w ∈ vs, w ≤ t → w ≤ y) := by
  have hmono : ∀ (i j : Nat) (hi : i < vs.length) (hj : j < vs.length),
      i ≤ j → vs[i] ≤ vs[j] := by
    intro i j hi hj hij
    rcases Nat.lt_or_ge i j with hlt | hge
    · exact List.Sorted.rel_get_of_lt hs (by simpa using hlt)
    · have : i = j := le_antisymm hij hge
      subst this
      exact le_refl _
  constructor
  · rintro ⟨hne, hy⟩
    rcases linearSearchAux_cases vs t vs.length with hm1 | ⟨i, hi⟩
    · exact absurd hm1 hne
    obtain ⟨hlen, hle, hmax⟩ := linearSearchAux_eq_coe vs t vs.length i hi
    rw [linear_search] at hy
    rw [hi, Int.toNat_natCast] at hy
    refine ⟨?_, ?_, ?_⟩
    · rw [← hy, List.getD_eq_getElem vs 0 hlen]
      exact List.getElem_mem hlen
    · rw [← hy]; exact hle
    · intro w hw hwt
      obtain ⟨j, hj, hwj⟩ := List.mem_iff_getElem.mp hw
      by_cases hji : j ≤ i
      · calc w = vs[j] := hwj.symm
          _ ≤ vs[i] := hmono j i hj hlen hji
          _ = vs.getD i 0 := (List.getD_eq_getElem vs 0 hlen).symm
          _ = y := hy
      · exfalso
        have hgt := hmax j (not_le.mp hji) hj
        rw [List.getD_eq_getElem vs 0 hj, hwj] at hgt
        omega
  · rintro ⟨hmem, hyt, hymax⟩
    have hne : linear_search vs t ≠ -1 := by
      intro hcon
      have hall := (linearSearchAux_eq_neg_one_iff vs t vs.length).mp hcon
      obtain ⟨j, hj, hyj⟩ := List.mem_iff_getElem.mp hmem
      have hgt := hall j hj
      rw [List.getD_eq_getElem vs 0 hj, hyj] at hgt
      omega
    refine ⟨hne, ?_⟩
    rcases linearSearchAux_cases vs t vs.length with hm1 | ⟨i, hi⟩
    · exact absurd hm1 hne
    obtain ⟨hlen, hle, hmax⟩ := linearSearchAux_eq_coe vs t vs.length i hi
    rw [linear_search, hi, Int.toNat_natCast,
      List.getD_eq_getElem vs 0 hlen]
    have h1 : vs[i] ≤ y := by
      refine hymax vs[i] (List.getElem_mem hlen) ?_
      rw [← List.getD_eq_getElem vs 0 hlen]
      exact hle
    have h2 : y ≤ vs[i] := by
      obtain ⟨j, hj, hyj⟩ := List.mem_iff_getElem.mp hmem
      have hji : j ≤ i := by
        by_contra hcon
        have hgt := hmax j (by omega) hj
        rw [List.getD_eq_getElem vs 0 hj, hyj] at hgt
        omega
      calc y = vs[j] := hyj.symm
        _ ≤ vs[i] := hmono j i hj hlen hji
    exact le_antisymm h1 h2

theorem mem_get_stewi_iff (year : Int) (inv : String) (y : Int) :
    (inv, y) ∈ get_stewi_invent_years year
      ↔ ∃ vs, (inv, vs) ∈ STEWI_DATA_VINTAGES
          ∧ linear_search vs year ≠ -1
          ∧ vs.getD (linear_search vs year).toNat 0 = y := by
  unfold get_stewi_invent_years
  rw [List.mem_filterMap]
  constructor
  · rintro ⟨⟨k, vs⟩, hkv, hf⟩
    dsimp only at hf
    by_cases hne : linear_search vs year ≠ -1
    · rw [if_pos hne] at hf
      obtain ⟨h1, h2⟩ := Prod.mk.injEq .. ▸ Option.some.inj hf
      exact ⟨vs, h1 ▸ hkv, hne, h2⟩
    · rw [if_neg hne] at hf
      cases hf
  · rintro ⟨vs, hmem, hne, hy⟩
    refine ⟨(inv, vs), hmem, ?_⟩
    dsimp only
    rw [if_pos hne, hy]

/-- C9: `linear_search` on a sorted list returns the largest index whose
element is at most the target (`-1` exactly when the target is below every
element), and `get_stewi_invent_years` therefore maps each StEWI inventory
to its most recent vintage not exceeding the given year, omitting
inventories with no such vintage. -/
theorem C9_linear_search_stewi (lst : List Int) (target : Int)
    (hs : lst.Sorted (· ≤ ·)) :
    ((linear_search lst target = -1 ↔ ∀ x ∈ lst, target < x)
      ∧ (∀ i : Nat, linear_search lst target = (i : Int) →
          i < lst.length ∧ lst.getD i 0 ≤ target
            ∧ ∀ j : Nat, j < lst.length → lst.getD j 0 ≤ target → j ≤ i))
    ∧ (∀ (inv : String) (y : Int),
        (inv, y) ∈ get_stewi_invent_years target
          ↔ ∃ vs, (inv, vs) ∈ STEWI_DATA_VINTAGES ∧ y ∈ vs ∧ y ≤ target
              ∧ ∀ w ∈ vs, w ≤ target → w ≤ y) := by
  refine ⟨⟨?_, ?_⟩, ?_⟩
  · rw [linear_search, linearSearchAux_eq_neg_one_iff]
    constructor
    · intro hall x hx
      obtain ⟨j, hj, rfl⟩ := List.mem_iff_getElem.mp hx
      have hgt := hall j hj
      rwa [List.getD_eq_getElem lst 0 hj] at hgt
    · intro hall j hj
      rw [List.getD_eq_getElem lst 0 hj]
      exact hall _ (List.getElem_mem hj)
  · intro i hi
    obtain ⟨h1, h2, h3⟩ := linearSearchAux_eq_coe lst target lst.length i hi
    refine ⟨h1, h2, fun j hj hle => ?_⟩
    by_contra hcon
    exact absurd hle (not_le.mpr (h3 j (by omega) hj))
  · intro inv y
    rw [mem_get_stewi_iff]
    have hsorted : ∀ kv ∈ STEWI_DATA_VINTAGES,
        List.Sorted (· ≤ ·) kv.2 := by decide
    constructor
    · rintro ⟨vs, hmem, hne, hy⟩
      obtain ⟨hm, hyt, hmax⟩ :=
        (linear_search_max_value vs target
          (hsorted (inv, vs) hmem) y).mp ⟨hne, hy⟩
      exact ⟨vs, hmem, hm, hyt, hmax⟩
    · rintro ⟨vs, hmem, hyv, hyt, hmax⟩
      obtain ⟨hne, hy⟩ :=
        (linear_search_max_value vs target
          (hsorted (inv, vs) hmem) y).mpr ⟨hyv, hyt, hmax⟩
      exact ⟨vs, hmem, hne, hy⟩

/-- Witness for C9 at the NEI vintages and the year 2019 (the doctest of
`linear_search`). -/
theorem C9_witness :
    List.Sorted (· ≤ ·) ([2011, 2014, 2017, 2020] : List Int)
    ∧ (linear_search [2011, 2014, 2017, 2020] 2019 = -1
        ↔ ∀ x ∈ ([2011, 2014, 2017, 2020] : List Int), (2019:Int) < x) :=
  ⟨by decide,
    (C9_linear_search_stewi [2011, 2014, 2017, 2020] 2019 (by decide)).1.1⟩

end ElciToRem

namespace CampdAnalyzer

/-- `max_tries = 4`, the API max-retries parameter of `query_epa_cams`
(`campd_analyzer.py`). -/
def max_tries : Nat := 4

/-- Modelled from the spec: `read_from_api` (imported from
`electricitylci.utils`, not part of this repository).  The spec describes
it as one of the "retry-loops around HTTP calls": the HTTP attempt
(`attempts n` is the outcome of the `n`-th try — `some` data and an
optional `X-Total-Count` header on success, `none` on failure) is retried
until it succeeds or `max_tries` tries are used; on total failure it
returns no data with `url_tries` maxed out.  `used` counts tries already
made. -/
def readFromApiAux {A : Type}
    (attempts : Nat → Option (List A × Option Int)) :
    Nat → Nat → List A × Nat × Option Int
  | 0, used => ([], used, none)
  | Nat.succ k, used =>
      match attempts used with
      | some (js, tot) => (js, used + 1, tot)
      | none => readFromApiAux attempts k (used + 1)

/-- Modelled from the spec: `read_from_api` entry point (see
`readFromApiAux`). -/
def read_from_api {A : Type}
    (attempts : Nat → Option (List A × Option Int)) (maxT : Nat) :
    List A × Nat × Option Int :=
  readFromApiAux attempts maxT 0

theorem readFromApiAux_tries_le {A : Type}
    (attempts : Nat → Option (List A × Option Int)) :
    ∀ k used, (readFromApiAux attempts k used).2.1 ≤ used + k := by
  intro k
  induction k with
  | zero =>
      intro used
      simp [readFromApiAux]
  | succ k ih =>
      intro used
      rw [readFromApiAux]
      cases attempts used with
      | some v =>
          cases v with
          | mk js tot =>
              show used + 1 ≤ used + (k + 1)
              omega
      | none =>
          have hrec := ih (used + 1)
          show (readFromApiAux attempts k (used + 1)).2.1 ≤ used + (k + 1)
          omega

/-- The `while recs_received < (recs_total - 1)` pagination loop of
`query_epa_cams`.  `pages pageNo` is the outcome of the
`read_from_api` call for that page: `Except.error` models the raised
exception caught by the `except` branch (which sets `js_list = []`,
`h_dict = {}` — so no `'X-Total-Count'` header — and
`url_tries = max_tries`).  Each iteration reads the page, waits, sets
`recs_total` from the header (default 0), adds the received records, and
appends the non-empty page data to the frame (`df ++ r.1` covers all four
concat branches, since appending `[]` is the identity).  The loop is run
on `fuel` to stay total; every claim is about runs that terminate. -/
def queryLoop {A : Type}
    (pages : Nat → Except Unit (List A × Nat × Option Int)) :
    Nat → Int → Int → Nat → List A → List A
  | 0, _, _, _, df => df
  | Nat.succ fuel, recsReceived, recsTotal, pageNo, df =>
      if recsReceived < recsTotal - 1 then
        let r := match pages pageNo with
          | Except.ok v => v
          | Except.error _ => ([], max_tries, none)
        queryLoop pages fuel (recsReceived + r.1.length) ((r.2.2).getD 0)
          (pageNo + 1) (df ++ r.1)
      else df

/-- `query_epa_cams` (`campd_analyzer.py`), from its initial state:
`recs_received = 0`, `recs_total = 2` (">1 to initiate the loop"),
`page_no = 1`, empty data frame. -/
def query_epa_cams {A : Type}
    (pages : Nat → Except Unit (List A × Nat × Option Int))
    (fuel : Nat) : List A :=
  queryLoop pages fuel 0 2 1 []

/-- C5: `max_tries` is 4 and `read_from_api` makes at most 4 tries; when
the current page's request raises (or exhausts its retries with no data
and no headers), the `except`/header-default logic forces the record
total to zero and the loop returns the records collected so far —
in particular `query_epa_cams` returns `[]` instead of propagating an
error on its first page. -/
theorem C5_query_epa_cams_error_handling {A : Type}
    (pages : Nat → Except Unit (List A × Nat × Option Int))
    (fuel : Nat) (recsReceived recsTotal : Int) (pageNo : Nat)
    (df : List A)
    (hrr : 0 ≤ recsReceived)
    (herr : pages pageNo = Except.error ()
      ∨ pages pageNo = Except.ok ([], max_tries, none)) :
    (max_tries = 4
      ∧ ∀ attempts : Nat → Option (List A × Option Int),
          (read_from_api attempts max_tries).2.1 ≤ 4)
    ∧ queryLoop pages (fuel + 2) recsReceived recsTotal pageNo df = df
    ∧ (∀ fuel' : Nat, pages 1 = Except.error () →
        query_epa_cams pages (fuel' + 2) = []) := by
  have hloop : ∀ (fuel₀ : Nat) (rr rt : Int) (p : Nat) (d : List A),
      0 ≤ rr →
      (pages p = Except.error ()
        ∨ pages p = Except.ok ([], max_tries, none)) →
      queryLoop pages (fuel₀ + 2) rr rt p d = d := by
    intro fuel₀ rr rt p d hrr₀ herr₀
    rw [queryLoop]
    by_cases hc : rr < rt - 1
    · rw [if_pos hc]
      have hr : (match pages p with
          | Except.ok v => v
          | Except.error _ => ([], max_tries, none))
          = (([] : List A), max_tries, (none : Option Int)) := by
        rcases herr₀ with he | he <;> rw [he]
      rw [hr]
      rw [queryLoop]
      rw [if_neg (by simp; omega)]
      exact List.append_nil d
    · rw [if_neg hc]
  refine ⟨⟨rfl, ?_⟩, ?_, ?_⟩
  · intro attempts
    have := readFromApiAux_tries_le attempts max_tries 0
    simpa [read_from_api, max_tries] using this
  · exact hloop fuel recsReceived recsTotal pageNo df hrr herr
  · intro fuel' h1
    exact hloop fuel' 0 2 1 [] (le_refl 0) (Or.inl h1)

/-- A page oracle whose every request raises. -/
def cexPages : Nat → Except Unit (List Nat × Nat × Option Int) :=
  fun _ => Except.error ()

/-- Witness for C5: a run whose first page raises returns the empty
record list. -/
theorem C5_witness :
    ((0:Int) ≤ 0
      ∧ (cexPages 1 = Except.error ()
        ∨ cexPages 1 = Except.ok ([], max_tries, none)))
    ∧ queryLoop cexPages (0 + 2) 0 2 1 [] = [] :=
  ⟨⟨le_refl 0, Or.inl rfl⟩,
    (C5_query_epa_cams_error_handling cexPages 0 0 2 1 [] (le_refl 0)
      (Or.inl rfl)).2.1⟩

/-! ## `analyze_df` and `extract_year_month` (`campd_analyzer.py`) -/

/-- Numeric value of an ASCII digit. -/
def digitVal (c : Char) : Nat := c.toNat - 48

/-- `%Y` in CPython's `strptime`: exactly four digits. -/
def parseYear4 : List Char → Option (Nat × List Char)
  | a :: b :: c :: d :: rest =>
      if a.isDigit && b.isDigit && c.isDigit && d.isDigit then
        some (digitVal a * 1000 + digitVal b * 100
          + digitVal c * 10 + digitVal d, rest)
      else none
  | _ => none

/-- A 1-2 digit `strptime` field, modelling the regex alternations (such
as `1[0-2]|0[1-9]|[1-9]` for `%m`): the two-digit alternative (validated
by `v2`) is tried first, backtracking to the one-digit alternative
(validated by `v1`) when the rest of the pattern fails. -/
def tryField {A : Type} (v2 v1 : Nat → Bool) (l : List Char)
    (k : Nat → List Char → Option A) : Option A :=
  (match l with
   | a :: b :: rest =>
       if a.isDigit && b.isDigit && v2 (digitVal a * 10 + digitVal b) then
         k (digitVal a * 10 + digitVal b) rest
       else none
   | _ => none)
  <|>
  (match l with
   | a :: rest =>
       if a.isDigit && v1 (digitVal a) then k (digitVal a) rest else none
   | _ => none)

/-- A literal separator character in the format string. -/
def expectSep (c : Char) : List Char → Option (List Char)
  | x :: rest => if x = c then some rest else none
  | [] => none

/-- `%m` two-digit pattern `1[0-2]|0[1-9]`. -/
def mValid2 (n : Nat) : Bool := 1 ≤ n && n ≤ 12

/-- `%m` one-digit pattern `[1-9]`. -/
def mValid1 (n : Nat) : Bool := 1 ≤ n && n ≤ 9

/-- `%d` two-digit pattern `3[01]|[12]\d|0[1-9]`. -/
def dValid2 (n : Nat) : Bool := 1 ≤ n && n ≤ 31

/-- `%d` one-digit pattern `[1-9]`. -/
def dValid1 (n : Nat) : Bool := 1 ≤ n && n ≤ 9

/-- `%H` two-digit pattern `2[0-3]|[01]\d`. -/
def hValid2 (n : Nat) : Bool := n ≤ 23

/-- `%H`/`%M`/`%S` one-digit pattern `\d`. -/
def oneDigitValid (_ : Nat) : Bool := true

/-- `%M` two-digit pattern `[0-5]\d`. -/
def minValid2 (n : Nat) : Bool := n ≤ 59

/-- `%S` two-digit pattern `6[01]|[0-5]\d` (admits leap seconds). -/
def sValid2 (n : Nat) : Bool := n ≤ 61

/-- Gregorian leap year, as in `datetime`. -/
def leapYear (y : Nat) : Bool := y % 4 = 0 && (y % 100 ≠ 0 || y % 400 = 0)

/-- Days per month, as validated by the `datetime` constructor. -/
def daysInMonth (y m : Nat) : Nat :=
  if m = 2 then (if leapYear y then 29 else 28)
  else if m = 4 || m = 6 || m = 9 || m = 11 then 30 else 31

/-- The `datetime(...)` constructor checks that `strptime`'s regex cannot
express: positive year, day within the month, and seconds below 60 (the
regex admits leap seconds 60/61, which the constructor rejects). -/
def validDateTime (y m d sec : Nat) : Bool :=
  1 ≤ y && 1 ≤ d && d ≤ daysInMonth y m && sec ≤ 59

/-- The regex of `strptime(_, "%Y-%m-%d")`, required to consume the whole
string; yields `(year, month, day)`. -/
def parseFmtDate (l : List Char) : Option (Nat × Nat × Nat) :=
  match parseYear4 l with
  | none => none
  | some (y, r1) =>
      (expectSep '-' r1).bind (fun r2 =>
        tryField mValid2 mValid1 r2 (fun m r3 =>
          (expectSep '-' r3).bind (fun r4 =>
            tryField dValid2 dValid1 r4 (fun d r5 =>
              if r5 = [] then some (y, m, d) else none))))

/-- The regex of `strptime(_, "%Y-%m-%dT%H:%M:%S+00")`, required to
consume the whole string; yields `(year, month, day, second)`. -/
def parseFmtDateTime (l : List Char) : Option (Nat × Nat × Nat × Nat) :=
  match parseYear4 l with
  | none => none
  | some (y, r1) =>
      (expectSep '-' r1).bind (fun r2 =>
        tryField mValid2 mValid1 r2 (fun m r3 =>
          (expectSep '-' r3).bind (fun r4 =>
            tryField dValid2 dValid1 r4 (fun d r5 =>
              (expectSep 'T' r5).bind (fun r6 =>
                tryField hValid2 oneDigitValid r6 (fun _hh r7 =>
                  (expectSep ':' r7).bind (fun r8 =>
                    tryField minValid2 oneDigitValid r8 (fun _mm r9 =>
                      (expectSep ':' r9).bind (fun r10 =>
                        tryField sValid2 oneDigitValid r10
                          (fun ss r11 =>
                            match r11 with
                            | ['+', '0', '0'] => some (y, m, d, ss)
                            | _ => none))))))))))

/-- `datetime.datetime.strptime(d_str, "%Y-%m-%dT%H:%M:%S+00")`:
regex match plus constructor validation. -/
def strptimeDateTime (s : List Char) : Option (Nat × Nat) :=
  match parseFmtDateTime s with
  | some (y, m, d, ss) =>
      if validDateTime y m d ss then some (y, m) else none
  | none => none

/-- `datetime.datetime.strptime(d_str, "%Y-%m-%d")`. -/
def strptimeDate (s : List Char) : Option (Nat × Nat) :=
  match parseFmtDate s with
  | some (y, m, d) => if validDateTime y m d 0 then some (y, m) else none
  | none => none

/-- `extract_year_month` from `campd_analyzer.py`: try the full timestamp
format, fall back to the plain date format, and return `none` (modelling
`(None, None)`) when both raise. -/
def extract_year_month (s : List Char) : Option (Nat × Nat) :=
  match strptimeDateTime s with
  | some ym => some ym
  | none => strptimeDate s

/-- The data-frame model used by `analyze_df`: column names, per-column
values (all raw strings modelled as `List Char`), and the row count
`len(df)`. -/
structure DataFrame where
  columns : List (List Char)
  values : List Char → List (List Char)
  nrows : Nat

/-- `str.lower()` on one character (ASCII, which covers the CSV headers
the tool reads). -/
def lowerChar (c : Char) : Char :=
  if 'A' ≤ c ∧ c ≤ 'Z' then Char.ofNat (c.toNat + 32) else c

/-- `str.lower()`. -/
def asciiLower (s : List Char) : List Char := s.map lowerChar

/-- `find_column` from `campd_analyzer.py`: the unique column whose
lowercase name matches, else `None`. -/
def find_column (df : DataFrame) (col_name : List Char) : Option (List Char) :=
  match df.columns.filter (fun x => asciiLower x == asciiLower col_name) with
  | [c] => some c
  | _ => none

/-- `all_months` in `analyze_df`. -/
def allMonths : List Nat := [1, 2, 3, 4, 5, 6, 7, 8, 9, 10, 11, 12]

/-- `np.unique`: sorted list of distinct values. -/
def npUnique (l : List Nat) : List Nat := l.dedup.mergeSort (· ≤ ·)

/-- `analyze_df` from `campd_analyzer.py`.  The result is `some` of the
returned triple; `none` covers the two paths on which the source does not
return a triple: unparseable dates (where `np.unique`/`sum` raise on a
`None` month) and the unreachable fall-through when twelve distinct
months fail the `sum == 78` check. -/
def analyze_df (df : DataFrame) : Option (Option Nat × Nat × List Nat) :=
  let num_lines := df.nrows
  match find_column df "date".toList with
  | none => some (none, 12, allMonths)
  | some date_col =>
      let parsed := (df.values date_col).map
        (fun v => (extract_year_month v).map Prod.snd)
      if parsed.all Option.isSome then
        let months := npUnique (parsed.filterMap id)
        let num_months := months.length
        let sum_months := months.sum
        if num_months = 12 ∧ sum_months = 78 then
          some (some num_lines, 0, [])
        else if num_months ≠ 12 then
          let missed := allMonths.filter (fun x => !(months.contains x))
          some (some num_lines, missed.length, missed)
        else none
      else none

theorem tryField_some {A : Type} (v2 v1 : Nat → Bool) (l : List Char)
    (k : Nat → List Char → Option A) (r : A)
    (h : tryField v2 v1 l k = some r) :
    ∃ n rest, k n rest = some r ∧ (v2 n = true ∨ v1 n = true) := by
  cases l with
  | nil => cases h
  | cons a t =>
      cases t with
      | nil =>
          unfold tryField at h
          dsimp only at h
          rw [Option.none_orElse] at h
          by_cases h1 : (a.isDigit && v1 (digitVal a)) = true
          · rw [if_pos h1] at h
            simp only [Bool.and_eq_true] at h1
            exact ⟨digitVal a, [], h, Or.inr h1.2⟩
          · rw [if_neg h1] at h
            cases h
      | cons b t2 =>
          unfold tryField at h
          dsimp only at h
          by_cases h2 : (a.isDigit && b.isDigit
              && v2 (digitVal a * 10 + digitVal b)) = true
          · rw [if_pos h2] at h
            simp only [Bool.and_eq_true] at h2
            cases hk : k (digitVal a * 10 + digitVal b) t2 with
            | some v =>
                rw [hk, Option.some_orElse] at h
                rw [Option.some.inj h] at hk
                exact ⟨digitVal a * 10 + digitVal b, t2, hk, Or.inl h2.2⟩
            | none =>
                rw [hk, Option.none_orElse] at h
                by_cases h1 : (a.isDigit && v1 (digitVal a)) = true
                · rw [if_pos h1] at h
                  simp only [Bool.and_eq_true] at h1
                  exact ⟨digitVal a, b :: t2, h, Or.inr h1.2⟩
                · rw [if_neg h1] at h
                  cases h
          · rw [if_neg h2, Option.none_orElse] at h
            by_cases h1 : (a.isDigit && v1 (digitVal a)) = true
            · rw [if_pos h1] at h
              simp only [Bool.and_eq_true] at h1
              exact ⟨digitVal a, b :: t2, h, Or.inr h1.2⟩
            · rw [if_neg h1] at h
              cases h

/-- A successful month field satisfies its regex alternations' bounds. -/
theorem month_bounds_of_valid {m : Nat}
    (hv : mValid2 m = true ∨ mValid1 m = true) : 1 ≤ m ∧ m ≤ 12 := by
  rcases hv with hv | hv <;>
    simp only [mValid2, mValid1, Bool.and_eq_true,
      decide_eq_true_eq] at hv <;>
    omega

theorem parseFmtDate_month {l : List Char} {y m d : Nat}
    (h : parseFmtDate l = some (y, m, d)) : 1 ≤ m ∧ m ≤ 12 := by
  unfold parseFmtDate at h
  cases hy : parseYear4 l with
  | none => rw [hy] at h; cases h
  | some p =>
      obtain ⟨y0, r1⟩ := p
      rw [hy] at h
      dsimp only at h
      cases hsep : expectSep '-' r1 with
      | none => rw [hsep, Option.none_bind] at h; cases h
      | some r2 =>
          rw [hsep, Option.some_bind] at h
          obtain ⟨n, rest, hk, hv⟩ := tryField_some _ _ _ _ _ h
          refine (?_ : n = m) ▸ month_bounds_of_valid hv
          cases hsep2 : expectSep '-' rest with
          | none => rw [hsep2, Option.none_bind] at hk; cases hk
          | some r4 =>
              rw [hsep2, Option.some_bind] at hk
              obtain ⟨n2, rest2, hk2, _⟩ := tryField_some _ _ _ _ _ hk
              by_cases h5 : rest2 = []
              · rw [if_pos h5] at hk2
                simp only [Option.some.injEq, Prod.mk.injEq] at hk2
                exact hk2.2.1
              · rw [if_neg h5] at hk2
                cases hk2

theorem parseFmtDateTime_month {l : List Char} {y m d ss : Nat}
    (h : parseFmtDateTime l = some (y, m, d, ss)) : 1 ≤ m ∧ m ≤ 12 := by
  unfold parseFmtDateTime at h
  cases hy : parseYear4 l with
  | none => rw [hy] at h; cases h
  | some p =>
      obtain ⟨y0, r1⟩ := p
      rw [hy] at h
      dsimp only at h
      cases hsep : expectSep '-' r1 with
      | none => rw [hsep, Option.none_bind] at h; cases h
      | some r2 =>
          rw [hsep, Option.some_bind] at h
          obtain ⟨n, rest, hk, hv⟩ := tryField_some _ _ _ _ _ h
          refine (?_ : n = m) ▸ month_bounds_of_valid hv
          cases hsep2 : expectSep '-' rest with
          | none => rw [hsep2, Option.none_bind] at hk; cases hk
          | some r4 =>
              rw [hsep2, Option.some_bind] at hk
              obtain ⟨n2, rest2, hk2, _⟩ := tryField_some _ _ _ _ _ hk
              cases hsep3 : expectSep 'T' rest2 with
              | none => rw [hsep3, Option.none_bind] at hk2; cases hk2
              | some r6 =>
                  rw [hsep3, Option.some_bind] at hk2
                  obtain ⟨n3, rest3, hk3, _⟩ := tryField_some _ _ _ _ _ hk2
                  cases hsep4 : expectSep ':' rest3 with
                  | none => rw [hsep4, Option.none_bind] at hk3; cases hk3
                  | some r8 =>
                      rw [hsep4, Option.some_bind] at hk3
                      obtain ⟨n4, rest4, hk4, _⟩ :=
                        tryField_some _ _ _ _ _ hk3
                      cases hsep5 : expectSep ':' rest4 with
                      | none =>
                          rw [hsep5, Option.none_bind] at hk4
                          cases hk4
                      | some r10 =>
                          rw [hsep5, Option.some_bind] at hk4
                          obtain ⟨n5, rest5, hk5, _⟩ :=
                            tryField_some _ _ _ _ _ hk4
                          split at hk5
                          · simp only [Option.some.injEq,
                              Prod.mk.injEq] at hk5
                            exact hk5.2.1
                          · cases hk5

theorem extract_year_month_bounds {s : List Char} {y m : Nat}
    (h : extract_year_month s = some (y, m)) : 1 ≤ m ∧ m ≤ 12 := by
  unfold extract_year_month at h
  cases h1 : strptimeDateTime s with
  | some ym =>
      rw [h1] at h
      dsimp only at h
      unfold strptimeDateTime at h1
      cases h2 : parseFmtDateTime s with
      | none => rw [h2] at h1; cases h1
      | some q =>
          obtain ⟨y', m', d', ss'⟩ := q
          rw [h2] at h1
          dsimp only at h1
          by_cases hval : validDateTime y' m' d' ss' = true
          · rw [if_pos hval] at h1
            have hym : ym = (y, m) := Option.some.inj h
            rw [hym] at h1
            have := Option.some.inj h1
            simp only [Prod.mk.injEq] at this
            exact this.2 ▸ parseFmtDateTime_month h2
          · rw [if_neg hval] at h1
            cases h1
  | none =>
      rw [h1] at h
      dsimp only at h
      unfold strptimeDate at h
      cases h2 : parseFmtDate s with
      | none => rw [h2] at h; cases h
      | some q =>
          obtain ⟨y', m', d'⟩ := q
          rw [h2] at h
          dsimp only at h
          by_cases hval : validDateTime y' m' d' 0 = true
          · rw [if_pos hval] at h
            have := Option.some.inj h
            simp only [Prod.mk.injEq] at this
            exact this.2 ▸ parseFmtDate_month h2
          · rw [if_neg hval] at h
            cases h

/-- `x ∈ allMonths` is exactly `1 ≤ x ≤ 12`. -/
theorem mem_allMonths_iff (x : Nat) : x ∈ allMonths ↔ 1 ≤ x ∧ x ≤ 12 := by
  unfold allMonths
  constructor
  · intro hx
    simp only [List.mem_cons, List.not_mem_nil, or_false] at hx
    omega
  · intro hb
    simp only [List.mem_cons, List.not_mem_nil, or_false]
    omega

/-- Claim-side description of the missing months: the calendar months not
among the parsed month values of the date column. -/
def missedMonths (df : DataFrame) (c : List Char) : List Nat :=
  allMonths.filter (fun x =>
    !(((df.values c).map
        (fun v => (extract_year_month v).map Prod.snd)).contains (some x)))

/-- C6: `analyze_df` returns `(None, 12, [1..12])` when the frame has no
case-insensitively-unique `'date'` column; otherwise (when every date
value parses) it returns the row count, the number of calendar months
absent from the parsed dates, and the list of those months — empty when
all twelve are present. -/
theorem C6_analyze_df (df : DataFrame) :
    (find_column df "date".toList = none →
      analyze_df df = some (none, 12, allMonths))
    ∧ (∀ c, find_column df "date".toList = some c →
        (∀ v ∈ df.values c, (extract_year_month v).isSome) →
        (analyze_df df
            = some (some df.nrows, (missedMonths df c).length,
                missedMonths df c))
          ∧ ((∀ m ∈ allMonths,
                some m ∈ (df.values c).map
                  (fun v => (extract_year_month v).map Prod.snd)) →
              missedMonths df c = [])) := by
  constructor
  · intro hc
    unfold analyze_df
    rw [hc]
  · intro c hc hall
    have hmissnil : (∀ m ∈ allMonths,
        some m ∈ (df.values c).map
          (fun v => (extract_year_month v).map Prod.snd)) →
        missedMonths df c = [] := by
      intro hfull
      unfold missedMonths
      rw [List.filter_eq_nil_iff]
      intro x hx
      simp only [Bool.not_eq_true', Bool.not_eq_false]
      exact List.elem_iff.mpr (hfull x hx)
    refine ⟨?_, hmissnil⟩
    unfold analyze_df
    rw [hc]
    dsimp only
    have hps : ((df.values c).map
        (fun v => (extract_year_month v).map Prod.snd)).all
          Option.isSome = true := by
      rw [List.all_eq_true]
      intro x hx
      obtain ⟨v, hv, rfl⟩ := List.mem_map.mp hx
      rw [Option.isSome_map']
      exact hall v hv
    rw [if_pos hps]
    have hmem : ∀ x : Nat,
        x ∈ npUnique (((df.values c).map
            (fun v => (extract_year_month v).map Prod.snd)).filterMap id)
          ↔ some x ∈ (df.values c).map
              (fun v => (extract_year_month v).map Prod.snd) := by
      intro x
      unfold npUnique
      rw [(List.mergeSort_perm _ _).mem_iff, List.mem_dedup,
        List.mem_filterMap]
      constructor
      · rintro ⟨a, ha, rfl⟩
        exact ha
      · intro ha
        exact ⟨some x, ha, rfl⟩
    have hnd : (npUnique (((df.values c).map
        (fun v => (extract_year_month v).map Prod.snd)).filterMap
          id)).Nodup :=
      (List.mergeSort_perm _ _).nodup_iff.mpr (List.nodup_dedup _)
    have hbound : ∀ x ∈ npUnique (((df.values c).map
        (fun v => (extract_year_month v).map Prod.snd)).filterMap id),
        1 ≤ x ∧ x ≤ 12 := by
      intro x hx
      rw [hmem] at hx
      obtain ⟨v, _, hveq⟩ := List.mem_map.mp hx
      obtain ⟨⟨yy, mm⟩, hvs, hms⟩ := Option.map_eq_some'.mp hveq
      exact hms ▸ extract_year_month_bounds hvs
    have hcontains : (fun x : Nat =>
        !((npUnique (((df.values c).map
            (fun v => (extract_year_month v).map Prod.snd)).filterMap
              id)).contains x))
        = fun x : Nat =>
            !(((df.values c).map
                (fun v => (extract_year_month v).map Prod.snd)).contains
              (some x)) := by
      funext x
      congr 1
      rw [Bool.eq_iff_iff, List.elem_iff, List.elem_iff]
      exact hmem x
    by_cases hfull : ∀ m ∈ allMonths,
        some m ∈ (df.values c).map
          (fun v => (extract_year_month v).map Prod.snd)
    · have hIcc : (npUnique (((df.values c).map
          (fun v => (extract_year_month v).map Prod.snd)).filterMap
            id)).toFinset = Finset.Icc 1 12 := by
        refine Finset.ext (fun x => ?_)
        rw [List.mem_toFinset, Finset.mem_Icc, hmem]
        constructor
        · intro hx
          exact hbound x ((hmem x).mpr hx)
        · rintro ⟨h1, h2⟩
          exact hfull x ((mem_allMonths_iff x).mpr ⟨h1, h2⟩)
      have hlen : (npUnique (((df.values c).map
          (fun v => (extract_year_month v).map Prod.snd)).filterMap
            id)).length = 12 := by
        rw [← List.toFinset_card_of_nodup hnd, hIcc]
        decide
      have hsum : (npUnique (((df.values c).map
          (fun v => (extract_year_month v).map Prod.snd)).filterMap
            id)).sum = 78 := by
        calc (npUnique _).sum = ((npUnique _).map id).sum := by
              rw [List.map_id]
          _ = (npUnique _).toFinset.sum id :=
              (List.sum_toFinset id hnd).symm
          _ = (Finset.Icc 1 12).sum id := by rw [hIcc]
          _ = 78 := by decide
      rw [if_pos ⟨hlen, hsum⟩, hmissnil hfull]
      rfl
    · have hlen_ne : (npUnique (((df.values c).map
          (fun v => (extract_year_month v).map Prod.snd)).filterMap
            id)).length ≠ 12 := by
        push_neg at hfull
        obtain ⟨m0, hm0mem, hm0notin⟩ := hfull
        have hsub : (npUnique (((df.values c).map
            (fun v => (extract_year_month v).map Prod.snd)).filterMap
              id)).toFinset ⊆ Finset.Icc 1 12 := by
          intro x hx
          rw [Finset.mem_Icc]
          exact hbound x (List.mem_toFinset.mp hx)
        have hm0f : m0 ∉ (npUnique (((df.values c).map
            (fun v => (extract_year_month v).map Prod.snd)).filterMap
              id)).toFinset := by
          rw [List.mem_toFinset, hmem]
          exact hm0notin
        have hm0icc : m0 ∈ Finset.Icc 1 12 := by
          rw [Finset.mem_Icc]
          exact (mem_allMonths_iff m0).mp hm0mem
        have hcard : (npUnique (((df.values c).map
            (fun v => (extract_year_month v).map Prod.snd)).filterMap
              id)).toFinset.card < 12 := by
          have hss := Finset.card_lt_card
            ((Finset.ssubset_iff_of_subset hsub).mpr ⟨m0, hm0icc, hm0f⟩)
          have h12 : (Finset.Icc 1 12).card = 12 := by decide
          omega
        rw [← List.toFinset_card_of_nodup hnd]
        omega
      rw [if_neg (by rintro ⟨h1, _⟩; exact hlen_ne h1), if_pos hlen_ne]
      unfold missedMonths
      rw [hcontains]

/-- Concrete frame for the C6 witness: a `Date` column (found
case-insensitively) with two parseable dates, in January and March. -/
def cexFrame : DataFrame :=
  { columns := ["Date".toList, "value".toList],
    values := fun c =>
      if c == "Date".toList then
        ["2020-01-15".toList, "2020-03-02T10:00:00+00".toList]
      else [],
    nrows := 2 }

/-- Witness for C6 at `cexFrame`. -/
theorem C6_witness :
    (find_column cexFrame "date".toList = some "Date".toList
      ∧ ∀ v ∈ cexFrame.values "Date".toList, (extract_year_month v).isSome)
    ∧ analyze_df cexFrame
        = some (some cexFrame.nrows,
            (missedMonths cexFrame "Date".toList).length,
            missedMonths cexFrame "Date".toList) :=
  ⟨⟨by decide, by decide⟩,
    ((C6_analyze_df cexFrame).2 "Date".toList (by decide) (by decide)).1⟩

end CampdAnalyzer

namespace ResidualGridMix

/-- `g_txt` in `make_residual_process_name` (`residual_grid_mix.py`) and
`make_forecast_process_name` (`energy_outlook.py`). -/
def grid_txt (at_grid : Bool) : String :=
  if at_grid then "at grid" else "at user"

/-- `c_txt` in the same functions. -/
def gen_txt (is_gen : Bool) : String :=
  if is_gen then "generation" else "consumption"

/-- Group 1 of the compiled pattern
`^(Electricity; {g_txt};)( {c_txt} mix - .*)$`. -/
def group1 (at_grid : Bool) : List Char :=
  ("Electricity; " ++ grid_txt at_grid ++ ";").toList

/-- The literal part of group 2 (before the `.*`). -/
def group2Pre (is_gen : Bool) : List Char :=
  (" " ++ gen_txt is_gen ++ " mix - ").toList

/-- Python `re`'s `.*$`: `.` matches anything but a newline, and `$` also
matches just before one trailing newline. -/
def dotstarOk (l : List Char) : Bool :=
  !(l.contains '\n')
    || (!(l.dropLast.contains '\n') && (l.getLast? == some '\n'))

/-- `q.match(p_name)` for the pattern above. -/
def nameMatches (at_grid is_gen : Bool) (p : List Char) : Bool :=
  (group1 at_grid ++ group2Pre is_gen).isPrefixOf p
    && dotstarOk (p.drop (group1 at_grid ++ group2Pre is_gen).length)

/-- `make_residual_process_name` (`residual_grid_mix.py`):
`q.sub("\\1 residual\\2", p_name)` when the pattern matches, and the
`ValueError` branch (modelled as `none`) otherwise. -/
def make_residual_process_name (p : List Char) (at_grid is_gen : Bool) :
    Option (List Char) :=
  if nameMatches at_grid is_gen p then
    some (group1 at_grid ++ " residual".toList
      ++ p.drop (group1 at_grid).length)
  else none

/-- `make_forecast_process_name` (`energy_outlook.py`):
identical, inserting `forecast`. -/
def make_forecast_process_name (p : List Char) (at_grid is_gen : Bool) :
    Option (List Char) :=
  if nameMatches at_grid is_gen p then
    some (group1 at_grid ++ " forecast".toList
      ++ p.drop (group1 at_grid).length)
  else none

/-- The pattern matches exactly the decompositions the claim describes. -/
theorem nameMatches_iff (at_grid is_gen : Bool) (p : List Char) :
    nameMatches at_grid is_gen p = true
      ↔ ∃ rest, p = group1 at_grid ++ group2Pre is_gen ++ rest
          ∧ dotstarOk rest = true := by
  unfold nameMatches
  rw [Bool.and_eq_true, List.isPrefixOf_iff_prefix]
  constructor
  · rintro ⟨⟨t, ht⟩, hd⟩
    refine ⟨t, ht.symm, ?_⟩
    rw [← ht, List.drop_left] at hd
    exact hd
  · rintro ⟨rest, rfl, hd⟩
    refine ⟨⟨rest, rfl⟩, ?_⟩
    rw [List.drop_left]
    exact hd

theorem drop_group1_of_full (rest : List Char) :
    (group1 true ++ group2Pre true ++ rest).drop (group1 true).length
      = group2Pre true ++ rest := by
  rw [List.append_assoc, List.drop_left]

theorem make_residual_eq_some (p : List Char) (rest : List Char)
    (hp : p = group1 true ++ group2Pre true ++ rest)
    (hd : dotstarOk rest = true) :
    make_residual_process_name p true true
      = some (group1 true ++ " residual".toList ++ group2Pre true
          ++ rest) := by
  unfold make_residual_process_name
  rw [if_pos ((nameMatches_iff true true p).mpr ⟨rest, hp, hd⟩), hp,
    drop_group1_of_full, ← List.append_assoc]

theorem make_forecast_eq_some (p : List Char) (rest : List Char)
    (hp : p = group1 true ++ group2Pre true ++ rest)
    (hd : dotstarOk rest = true) :
    make_forecast_process_name p true true
      = some (group1 true ++ " forecast".toList ++ group2Pre true
          ++ rest) := by
  unfold make_forecast_process_name
  rw [if_pos ((nameMatches_iff true true p).mpr ⟨rest, hp, hd⟩), hp,
    drop_group1_of_full, ← List.append_assoc]

/-- The marked output never matches the pattern again: right after
`Electricity; at grid;` it continues with ` residual`/` forecast` instead
of ` generation mix - `. -/
theorem marked_not_matches (w tail : List Char)
    (hw : w.take 2 = [' ', 'r'] ∨ w.take 2 = [' ', 'f']) :
    nameMatches true true (group1 true ++ w ++ tail) = false := by
  rw [Bool.eq_false_iff]
  intro hmatch
  rw [nameMatches_iff] at hmatch
  obtain ⟨rest, heq, _⟩ := hmatch
  have hwlen : 2 ≤ w.length := by
    rcases hw with hw | hw <;>
    · have hl := congrArg List.length hw
      rw [List.length_take] at hl
      simp at hl
      omega
  have h23 : (group1 true ++ w ++ tail).take 23
      = group1 true ++ w.take 2 := by
    rw [List.append_assoc, List.take_append_eq_append_take]
    have hg : (group1 true).take 23 = group1 true := by decide
    have hlen : 23 - (group1 true).length = 2 := by decide
    rw [hg, hlen, List.take_append_eq_append_take]
    have h0 : 2 - w.length = 0 := by omega
    rw [h0, List.take_zero, List.append_nil]
  have h23full : (group1 true ++ group2Pre true ++ rest).take 23
      = group1 true ++ [' ', 'g'] := by
    rw [List.append_assoc, List.take_append_eq_append_take]
    have hg : (group1 true).take 23 = group1 true := by decide
    have hlen : 23 - (group1 true).length = 2 := by decide
    rw [hg, hlen, List.take_append_eq_append_take]
    have hx : (group2Pre true).take 2 = [' ', 'g'] := by decide
    have h0 : 2 - (group2Pre true).length = 0 := by decide
    rw [hx, h0, List.take_zero, List.append_nil]
  rw [heq, h23full] at h23
  have hcancel : ([' ', 'g'] : List Char) = w.take 2 :=
    List.append_cancel_left h23
  rcases hw with hw | hw <;> rw [hw] at hcancel <;>
    exact absurd hcancel (by decide)

/-- C10: with the default flags, the residual/forecast process-name
functions insert ` residual`/` forecast` after the `Electricity; at grid;`
prefix exactly when the name matches
`Electricity; at grid; generation mix - ...`, raise `ValueError`
(modelled `none`) for every other name, and in particular raise on their
own output, so a process name is never marked twice. -/
theorem C10_make_process_name (p : List Char) :
    (∀ rest : List Char,
        p = group1 true ++ group2Pre true ++ rest → dotstarOk rest = true →
        make_residual_process_name p true true
          = some (group1 true ++ " residual".toList ++ group2Pre true
              ++ rest)
        ∧ make_forecast_process_name p true true
          = some (group1 true ++ " forecast".toList ++ group2Pre true
              ++ rest))
    ∧ ((¬ ∃ rest, p = group1 true ++ group2Pre true ++ rest
          ∧ dotstarOk rest = true) →
        make_residual_process_name p true true = none
        ∧ make_forecast_process_name p true true = none)
    ∧ (∀ q, make_residual_process_name p true true = some q →
        make_residual_process_name q true true = none)
    ∧ (∀ q, make_forecast_process_name p true true = some q →
        make_forecast_process_name q true true = none) := by
  refine ⟨fun rest hp hd =>
      ⟨make_residual_eq_some p rest hp hd,
        make_forecast_eq_some p rest hp hd⟩, ?_, ?_, ?_⟩
  · intro hno
    have hm : nameMatches true true p = false := by
      rw [Bool.eq_false_iff]
      intro hy
      exact hno ((nameMatches_iff true true p).mp hy)
    unfold make_residual_process_name make_forecast_process_name
    constructor <;> rw [if_neg (Bool.eq_false_iff.mp hm)]
  · intro q hq
    unfold make_residual_process_name at hq
    by_cases hm : nameMatches true true p = true
    · rw [if_pos hm] at hq
      have hq' := Option.some.inj hq
      unfold make_residual_process_name
      rw [if_neg (Bool.eq_false_iff.mp (by
        rw [← hq']
        exact marked_not_matches " residual".toList
          (p.drop (group1 true).length) (Or.inl (by decide))))]
    · rw [if_neg hm] at hq
      cases hq
  · intro q hq
    unfold make_forecast_process_name at hq
    by_cases hm : nameMatches true true p = true
    · rw [if_pos hm] at hq
      have hq' := Option.some.inj hq
      unfold make_forecast_process_name
      rw [if_neg (Bool.eq_false_iff.mp (by
        rw [← hq']
        exact marked_not_matches " forecast".toList
          (p.drop (group1 true).length) (Or.inr (by decide))))]
    · rw [if_neg hm] at hq
      cases hq

/-- Witness for C10 at a concrete grid-mix process name. -/
theorem C10_witness :
    ("Electricity; at grid; generation mix - FERC".toList
        = group1 true ++ group2Pre true ++ "FERC".toList
      ∧ dotstarOk "FERC".toList = true)
    ∧ make_residual_process_name
        "Electricity; at grid; generation mix - FERC".toList true true
        = some (group1 true ++ " residual".toList ++ group2Pre true
            ++ "FERC".toList) :=
  ⟨⟨by decide, by decide⟩,
    ((C10_make_process_name
        "Electricity; at grid; generation mix - FERC".toList).1
      "FERC".toList (by decide) (by decide)).1⟩

/-! ## `update_exchange_to_residual` (`residual_grid_mix.py`) -/

/-- `\w` in the fuel-name pattern `^from (\w+) - (.*)$` (ASCII word
characters; the fuel category names are ASCII). -/
def isWordChar (c : Char) : Bool := c.isAlphanum || c == '_'

/-- `q.match(p_ex.description)` for `^from (\w+) - (.*)$`, returning
group 1.  The maximal word-character run after `from ` must be non-empty
and be followed by ` - ` and then `.*$`; no backtracking case is lost
because a shorter run would leave a word character where the pattern
requires a space. -/
def matchFuelName (d : List Char) : Option (List Char) :=
  if "from ".toList.isPrefixOf d then
    let rest := d.drop 5
    let w := rest.takeWhile isWordChar
    let tail := rest.drop w.length
    if !w.isEmpty && " - ".toList.isPrefixOf tail
        && dotstarOk (tail.drop 3) then
      some w
    else none
  else none

/-- `f_name` in the exchange loops: group 1 on a match, `""` otherwise. -/
def fuelName (d : List Char) : List Char := (matchFuelName d).getD []

/-- An openLCA exchange (olca-schema v2), as used by the two
`update_exchange_to_*` functions. -/
structure Exchange where
  isInput : Bool
  description : List Char
  amount : ℚ
  internalId : Nat
  flow : Option String
  flowProperty : Option String
  unit : Option String
  isAvoidedProduct : Bool
  isQuantitativeReference : Bool
deriving Repr, DecidableEq

/-- A row of the residual grid mix dataset (`get_residual_mix`):
`Subregion` (REG_COL_NAME), `FuelCategory` (FUEL_COL_NAME, compared
against the parsed fuel names) and `Gen_Ratio_new`. -/
structure ResMixRow where
  subregion : String
  fuelCategory : List Char
  genRatioNew : ℚ
deriving Repr, DecidableEq

/-- The body of the `for p_ex in p_new.exchanges` loop of
`update_exchange_to_residual`, acting on one exchange given the
authority's rows `b` (computed once from the full dataset). -/
def updateResExchange (df : List ResMixRow) (ba : String)
    (p_ex : Exchange) : Exchange :=
  let b := df.filter (fun r => r.subregion == ba)
  if p_ex.isInput then
    let f_name := fuelName p_ex.description
    match b.filter (fun r => r.fuelCategory == f_name) with
    | [r] => { p_ex with amount := r.genRatioNew }
    | [] => if b.isEmpty then p_ex else { p_ex with amount := 0 }
    | _ => p_ex
  else p_ex

/-- `update_exchange_to_residual` (`residual_grid_mix.py`), restricted to
what it does to the copied process's exchanges: each exchange is updated
in place by the loop body. -/
def update_exchange_to_residual (exs : List Exchange)
    (df : List ResMixRow) (ba : String) : List Exchange :=
  exs.map (updateResExchange df ba)

/-- C4: `update_exchange_to_residual` maps the loop body over the
exchanges; output exchanges are never modified, and an input exchange's
amount becomes the dataset's `Gen_Ratio_new` when exactly one row matches
its (authority, fuel) pair, stays unchanged when the authority has no
rows at all, and becomes zero when the authority is present but the fuel
is not. -/
theorem C4_update_exchange_to_residual (exs : List Exchange)
    (df : List ResMixRow) (ba : String) (ex : Exchange) :
    update_exchange_to_residual exs df ba
        = exs.map (updateResExchange df ba)
    ∧ (ex.isInput = false → updateResExchange df ba ex = ex)
    ∧ (ex.isInput = true →
        (∀ r, df.filter (fun r => r.subregion == ba
              && r.fuelCategory == fuelName ex.description) = [r] →
          updateResExchange df ba ex = { ex with amount := r.genRatioNew })
        ∧ (df.filter (fun r => r.subregion == ba) = [] →
            updateResExchange df ba ex = ex)
        ∧ (df.filter (fun r => r.subregion == ba) ≠ [] →
            df.filter (fun r => r.subregion == ba
              && r.fuelCategory == fuelName ex.description) = [] →
            updateResExchange df ba ex = { ex with amount := 0 })) := by
  have hff : (df.filter (fun r => r.subregion == ba)).filter
        (fun r => r.fuelCategory == fuelName ex.description)
      = df.filter (fun r => r.subregion == ba
          && r.fuelCategory == fuelName ex.description) := by
    rw [List.filter_filter]
    refine List.filter_congr (fun r _ => ?_)
    rw [Bool.and_comm]
  refine ⟨rfl, ?_, ?_⟩
  · intro hni
    unfold updateResExchange
    dsimp only
    rw [if_neg (fun hc => by rw [hni] at hc; cases hc)]
  · intro hin
    refine ⟨?_, ?_, ?_⟩
    · intro r hr
      unfold updateResExchange
      dsimp only
      rw [if_pos hin, hff, hr]
    · intro hb
      unfold updateResExchange
      dsimp only
      have hsub : df.filter (fun r => r.subregion == ba
          && r.fuelCategory == fuelName ex.description) = [] := by
        rw [← hff, hb]
        rfl
      rw [if_pos hin, hff, hsub, hb]
      rfl
    · intro hb hnone
      unfold updateResExchange
      dsimp only
      rw [if_pos hin, hff, hnone]
      rw [if_neg (fun hemp => hb (List.isEmpty_iff.mp hemp))]

/-- Concrete inputs for the C4 witness: one input exchange for coal and
one output exchange, with a residual dataset holding the authority's coal
fraction. -/
def cexExchange : Exchange :=
  { isInput := true,
    description := "from COAL - Example BA".toList,
    amount := 0, internalId := 1, flow := none, flowProperty := none,
    unit := none, isAvoidedProduct := false,
    isQuantitativeReference := false }

/-- The residual dataset for the C4 witness. -/
def cexResDf : List ResMixRow :=
  [{ subregion := "Example BA", fuelCategory := "COAL".toList,
     genRatioNew := 1 }]

/-- Witness for C4: the single matching row rewrites the input exchange's
amount. -/
theorem C4_witness :
    (cexExchange.isInput = true
      ∧ cexResDf.filter (fun r => r.subregion == "Example BA"
          && r.fuelCategory == fuelName cexExchange.description)
        = [{ subregion := "Example BA", fuelCategory := "COAL".toList,
             genRatioNew := 1 }])
    ∧ updateResExchange cexResDf "Example BA" cexExchange
        = { cexExchange with amount := (1:ℚ) } :=
  ⟨⟨rfl, by decide⟩,
    (((C4_update_exchange_to_residual [] cexResDf "Example BA"
        cexExchange).2.2 rfl).1
      { subregion := "Example BA", fuelCategory := "COAL".toList,
        genRatioNew := 1 } (by decide))⟩

end ResidualGridMix

namespace EnergyOutlook

open ResidualGridMix (Exchange fuelName)

/-- A row of the AEO outlook mix frame (`energy_outlook.py`):
`Subregion` (REG_COL_NAME), `FuelCategory` (FUEL_COL_NAME, compared with
parsed fuel names), `Gen_Ratio_new` (GEN_COL_NAME) and `Used`
(USED_COL_NAME). -/
structure OutlookRow where
  subregion : String
  fuelCategory : List Char
  genRatioNew : ℚ
  used : Bool
deriving Repr, DecidableEq

/-- `ba_dict[ba]` with the `except KeyError` fallback string. -/
def baCodeOf (ba_dict : List (String × String)) (ba : String) : String :=
  (ba_dict.lookup ba).getD "BA CODE NOT FOUND"

/-- The amount update applied to one exchange of the copied process by
`update_exchange_to_outlook` (same case analysis as the residual
version), given the authority's rows `b`. -/
def updOutExchange (b : List OutlookRow) (p_ex : Exchange) : Exchange :=
  if p_ex.isInput then
    let f_name := fuelName p_ex.description
    match b.filter (fun r => r.fuelCategory == f_name) with
    | [r] => { p_ex with amount := r.genRatioNew }
    | [] => if b.isEmpty then p_ex else { p_ex with amount := 0 }
    | _ => p_ex
  else p_ex

/-- `df.loc[(df[REG] == ba_code) & (df[FUEL] == f_name), USED] = True`
for one fuel name. -/
def markRow (baCode : String) (f : List Char) (row : OutlookRow) :
    OutlookRow :=
  if row.subregion == baCode && row.fuelCategory == f then
    { row with used := true }
  else row

/-- The cumulative effect of the marking over a list of fuel names. -/
def markRowAll (baCode : String) (fs : List (List Char))
    (row : OutlookRow) : OutlookRow :=
  if row.subregion == baCode && fs.any (fun f => row.fuelCategory == f) then
    { row with used := true }
  else row

/-- State of the first exchange loop: the (partially marked) frame, the
exchanges processed so far, and the reference flow/flow-property/unit of
the first input exchange seen. -/
def Phase1State : Type :=
  List OutlookRow × List Exchange
    × Option (Option String × Option String × Option String)

/-- One iteration of the `for p_ex in p_new.exchanges` loop of
`update_exchange_to_outlook`: capture the reference flow data on the
first input exchange, mark the rows matching the parsed fuel name as
used, and update the exchange amount. -/
def phase1Step (b : List OutlookRow) (baCode : String)
    (st : Phase1State) (p_ex : Exchange) : Phase1State :=
  if p_ex.isInput then
    let refs := if st.2.2.isNone then
        some (p_ex.flow, p_ex.flowProperty, p_ex.unit)
      else st.2.2
    let f := fuelName p_ex.description
    (st.1.map (markRow baCode f), st.2.1 ++ [updOutExchange b p_ex], refs)
  else (st.1, st.2.1 ++ [p_ex], st.2.2)

/-- The new exchange appended for an unused row (`netl.make_exchange()`
followed by the field assignments). -/
def newOutlookExchange
    (refs : Option String × Option String × Option String)
    (ba : String) (pos : Nat) (row : OutlookRow) : Exchange :=
  { isInput := true,
    description := "from ".toList ++ row.fuelCategory
      ++ (" - " ++ ba).toList,
    amount := row.genRatioNew,
    internalId := pos + 1,
    flow := refs.1, flowProperty := refs.2.1, unit := refs.2.2,
    isAvoidedProduct := false,
    isQuantitativeReference := false }

/-- `update_exchange_to_outlook` (`energy_outlook.py`), restricted to the
copied process's exchange list and the outlook frame it returns: the
first loop updates amounts and marks used rows; the second loop appends a
new input exchange for each of the authority's rows still unused. -/
def update_exchange_to_outlook (exs : List Exchange)
    (df : List OutlookRow) (ba : String)
    (ba_dict : List (String × String)) : List Exchange × List OutlookRow :=
  let baCode := baCodeOf ba_dict ba
  let b := df.filter (fun r => r.subregion == baCode)
  let st := exs.foldl (phase1Step b baCode) (df, [], none)
  let refs := (st.2.2).getD (none, none, none)
  let b2 := st.1.filter (fun r => r.subregion == baCode)
  let a2 := b2.filter (fun r => !r.used)
  let exs2 := a2.foldl
    (fun acc row => acc ++ [newOutlookExchange refs ba acc.length row])
    st.2.1
  (exs2, st.1)

theorem updOutExchange_not_input (b : List OutlookRow) (ex : Exchange)
    (h : ex.isInput = false) : updOutExchange b ex = ex := by
  unfold updOutExchange
  rw [if_neg (fun hc => by rw [h] at hc; cases hc)]

theorem markRowAll_nil (c : String) (row : OutlookRow) :
    markRowAll c [] row = row := by
  unfold markRowAll
  rw [if_neg (by simp)]

theorem markRowAll_markRow (c : String) (f : List Char)
    (fs : List (List Char)) (row : OutlookRow) :
    markRowAll c fs (markRow c f row) = markRowAll c (f :: fs) row := by
  cases hs : (row.subregion == c) with
  | false =>
      have h1 : markRow c f row = row := by
        unfold markRow
        rw [if_neg (fun hc => by
          rw [Bool.and_eq_true, hs] at hc
          exact Bool.false_ne_true hc.1)]
      rw [h1]
      unfold markRowAll
      rw [hs, Bool.false_and, Bool.false_and]
  | true =>
      cases hf : (row.fuelCategory == f) with
      | false =>
          have h1 : markRow c f row = row := by
            unfold markRow
            rw [if_neg (fun hc => by
              rw [Bool.and_eq_true, hf] at hc
              exact Bool.false_ne_true hc.2)]
          rw [h1]
          unfold markRowAll
          rw [List.any_cons, hf, Bool.false_or]
      | true =>
          have h1 : markRow c f row = { row with used := true } := by
            unfold markRow
            rw [if_pos (by rw [hs, hf]; rfl)]
          have h2 : markRowAll c (f :: fs) row
              = { row with used := true } := by
            unfold markRowAll
            rw [if_pos (by rw [hs, List.any_cons, hf]; rfl)]
          rw [h1, h2]
          unfold markRowAll
          split <;> rfl

/-- `inputFuels` — the fuel names parsed from the input exchanges'
descriptions, in loop order. -/
def inputFuels (exs : List Exchange) : List (List Char) :=
  (exs.filter (fun e => e.isInput)).map (fun e => fuelName e.description)

theorem phase1_exchanges (b : List OutlookRow) (c : String) :
    ∀ (exs : List Exchange) (d : List OutlookRow) (acc : List Exchange)
      (refs : Option (Option String × Option String × Option String)),
      (exs.foldl (phase1Step b c) (d, acc, refs)).2.1
        = acc ++ exs.map (updOutExchange b) := by
  intro exs
  induction exs with
  | nil =>
      intro d acc refs
      simp
  | cons ex rest ih =>
      intro d acc refs
      rw [List.foldl_cons]
      by_cases hin : ex.isInput = true
      · have hstep : phase1Step b c (d, acc, refs) ex
            = (d.map (markRow c (fuelName ex.description)),
               acc ++ [updOutExchange b ex],
               if refs.isNone = true then
                 some (ex.flow, ex.flowProperty, ex.unit)
               else refs) := by
          unfold phase1Step
          rw [if_pos hin]
        rw [hstep, ih]
        rw [List.map_cons, List.append_assoc, List.singleton_append]
      · have hstep : phase1Step b c (d, acc, refs) ex
            = (d, acc ++ [ex], refs) := by
          unfold phase1Step
          rw [if_neg hin]
        rw [hstep, ih]
        rw [List.map_cons,
          updOutExchange_not_input b ex (Bool.not_eq_true _ ▸ hin),
          List.append_assoc, List.singleton_append]

theorem phase1_marks (b : List OutlookRow) (c : String) :
    ∀ (exs : List Exchange) (d : List OutlookRow) (acc : List Exchange)
      (refs : Option (Option String × Option String × Option String)),
      (exs.foldl (phase1Step b c) (d, acc, refs)).1
        = d.map (markRowAll c (inputFuels exs)) := by
  intro exs
  induction exs with
  | nil =>
      intro d acc refs
      rw [List.foldl_nil]
      refine ((List.map_congr_left (fun row _ => ?_)).trans
        (List.map_id d)).symm
      rw [inputFuels]
      dsimp only [List.filter_nil, List.map_nil]
      rw [markRowAll_nil]
      rfl
  | cons ex rest ih =>
      intro d acc refs
      rw [List.foldl_cons]
      by_cases hin : ex.isInput = true
      · have hstep : phase1Step b c (d, acc, refs) ex
            = (d.map (markRow c (fuelName ex.description)),
               acc ++ [updOutExchange b ex],
               if refs.isNone = true then
                 some (ex.flow, ex.flowProperty, ex.unit)
               else refs) := by
          unfold phase1Step
          rw [if_pos hin]
        rw [hstep, ih, List.map_map]
        have hfe : inputFuels (ex :: rest)
            = fuelName ex.description :: inputFuels rest := by
          unfold inputFuels
          rw [List.filter_cons, if_pos hin, List.map_cons]
        rw [hfe]
        refine List.map_congr_left (fun row _ => ?_)
        exact markRowAll_markRow c (fuelName ex.description)
          (inputFuels rest) row
      · have hstep : phase1Step b c (d, acc, refs) ex
            = (d, acc ++ [ex], refs) := by
          unfold phase1Step
          rw [if_neg hin]
        rw [hstep, ih]
        have hfe : inputFuels (ex :: rest) = inputFuels rest := by
          unfold inputFuels
          rw [List.filter_cons, if_neg hin]
        rw [hfe]

theorem phase2_mem_acc
    (refs : Option String × Option String × Option String) (ba : String) :
    ∀ (rows : List OutlookRow) (acc : List Exchange) (e : Exchange),
      e ∈ acc →
      e ∈ rows.foldl
        (fun a row => a ++ [newOutlookExchange refs ba a.length row])
        acc := by
  intro rows
  induction rows with
  | nil =>
      intro acc e he
      simpa using he
  | cons r rest ih =>
      intro acc e he
      rw [List.foldl_cons]
      exact ih _ e (List.mem_append_left _ he)

theorem phase2_mem_row
    (refs : Option String × Option String × Option String) (ba : String) :
    ∀ (rows : List OutlookRow) (acc : List Exchange) (r : OutlookRow),
      r ∈ rows →
      ∃ ex ∈ rows.foldl
          (fun a row => a ++ [newOutlookExchange refs ba a.length row])
          acc,
        ex.isInput = true ∧ ex.amount = r.genRatioNew
          ∧ ex.description = "from ".toList ++ r.fuelCategory
              ++ (" - " ++ ba).toList := by
  intro rows
  induction rows with
  | nil =>
      intro acc r hr
      cases hr
  | cons r0 rest ih =>
      intro acc r hr
      rw [List.foldl_cons]
      rcases List.mem_cons.mp hr with rfl | hrt
      · refine ⟨newOutlookExchange refs ba acc.length r, ?_, rfl, rfl, rfl⟩
        exact phase2_mem_acc refs ba rest _ _
          (List.mem_append_right acc (List.mem_singleton.mpr rfl))
      · exact ih _ r hrt

theorem filter_fuel_single (l : List OutlookRow)
    (hnd : (l.map (fun r => r.fuelCategory)).Nodup)
    (r : OutlookRow) (hr : r ∈ l) :
    l.filter (fun s => s.fuelCategory == r.fuelCategory) = [r] := by
  induction l with
  | nil => cases hr
  | cons a t ih =>
      rw [List.map_cons, List.nodup_cons] at hnd
      rcases List.mem_cons.mp hr with rfl | hrt
      · rw [List.filter_cons, if_pos (by simp)]
        have hnil : t.filter (fun s => s.fuelCategory == r.fuelCategory)
            = [] := by
          rw [List.filter_eq_nil_iff]
          intro s hs hbeq
          exact hnd.1 (beq_iff_eq.mp hbeq ▸
            List.mem_map_of_mem (fun x => x.fuelCategory) hs)
        rw [hnil]
      · have hne : (a.fuelCategory == r.fuelCategory) = false := by
          cases hq : (a.fuelCategory == r.fuelCategory) with
          | true =>
              exact absurd (beq_iff_eq.mp hq ▸
                List.mem_map_of_mem (fun x => x.fuelCategory) hrt)
                hnd.1
          | false => rfl
        rw [List.filter_cons,
          if_neg (fun hc => by rw [hne] at hc; cases hc)]
        exact ih hnd.2 hrt

/-- C7: for an authority in the outlook frame (with distinct fuel rows,
initially unmarked), `update_exchange_to_outlook` marks as `Used` every
row whose (subregion, fuel) pair matches an input exchange, appends every
remaining row of the authority as a new input exchange carrying its
`Gen_Ratio_new`, and thus every outlook fraction of the authority ends up
in some input exchange of the result — written into an existing one or
added as a new one. -/
theorem C7_update_exchange_to_outlook (exs : List Exchange)
    (df : List OutlookRow) (ba : String)
    (ba_dict : List (String × String))
    (hnodup : ((df.filter (fun r =>
        r.subregion == baCodeOf ba_dict ba)).map
          (fun r => r.fuelCategory)).Nodup)
    (hunused : ∀ r ∈ df, r.subregion = baCodeOf ba_dict ba →
        r.used = false) :
    ∀ r ∈ df, r.subregion = baCodeOf ba_dict ba →
      ((∃ ex ∈ exs, ex.isInput = true
          ∧ fuelName ex.description = r.fuelCategory) →
        { r with used := true }
          ∈ (update_exchange_to_outlook exs df ba ba_dict).2)
      ∧ ((¬ ∃ ex ∈ exs, ex.isInput = true
          ∧ fuelName ex.description = r.fuelCategory) →
        ∃ ex ∈ (update_exchange_to_outlook exs df ba ba_dict).1,
          ex.isInput = true ∧ ex.amount = r.genRatioNew
            ∧ ex.description = "from ".toList ++ r.fuelCategory
                ++ (" - " ++ ba).toList)
      ∧ (∃ ex ∈ (update_exchange_to_outlook exs df ba ba_dict).1,
          ex.isInput = true ∧ ex.amount = r.genRatioNew) := by
  intro r hr hsub
  have hres2 : (update_exchange_to_outlook exs df ba ba_dict).2
      = df.map (markRowAll (baCodeOf ba_dict ba) (inputFuels exs)) := by
    unfold update_exchange_to_outlook
    dsimp only
    rw [phase1_marks]
  have hany_iff : ((inputFuels exs).any
        (fun f => r.fuelCategory == f)) = true
      ↔ ∃ ex ∈ exs, ex.isInput = true
          ∧ fuelName ex.description = r.fuelCategory := by
    rw [List.any_eq_true]
    constructor
    · rintro ⟨f, hf, hbeq⟩
      obtain ⟨ex, hex, rfl⟩ := List.mem_map.mp hf
      have hexm := List.mem_filter.mp hex
      exact ⟨ex, hexm.1, hexm.2, (beq_iff_eq.mp hbeq).symm⟩
    · rintro ⟨ex, hex, hin, hf⟩
      refine ⟨fuelName ex.description, ?_, beq_iff_eq.mpr hf.symm⟩
      exact List.mem_map_of_mem _ (List.mem_filter.mpr ⟨hex, hin⟩)
  have hmain2 : (¬ ∃ ex ∈ exs, ex.isInput = true
      ∧ fuelName ex.description = r.fuelCategory) →
      ∃ ex ∈ (update_exchange_to_outlook exs df ba ba_dict).1,
        ex.isInput = true ∧ ex.amount = r.genRatioNew
          ∧ ex.description = "from ".toList ++ r.fuelCategory
              ++ (" - " ++ ba).toList := by
    intro hnm
    have hany : ((inputFuels exs).any (fun f => r.fuelCategory == f))
        = false := by
      rw [Bool.eq_false_iff]
      intro hc
      exact hnm (hany_iff.mp hc)
    have hrm : markRowAll (baCodeOf ba_dict ba) (inputFuels exs) r = r := by
      unfold markRowAll
      rw [hany, Bool.and_false]
      rfl
    unfold update_exchange_to_outlook
    dsimp only
    rw [phase1_marks]
    refine phase2_mem_row _ ba _ _ r ?_
    rw [List.mem_filter]
    refine ⟨?_, ?_⟩
    · rw [List.mem_filter]
      refine ⟨?_, by rw [beq_iff_eq]; exact hsub⟩
      exact hrm ▸ List.mem_map_of_mem _ hr
    · rw [Bool.not_eq_true', hunused r hr hsub]
  refine ⟨?_, hmain2, ?_⟩
  · intro hm
    rw [hres2]
    have hmark : markRowAll (baCodeOf ba_dict ba) (inputFuels exs) r
        = { r with used := true } := by
      unfold markRowAll
      rw [if_pos (by
        rw [hany_iff.mpr hm, Bool.and_true, beq_iff_eq]
        exact hsub)]
    exact hmark ▸ List.mem_map_of_mem _ hr
  · by_cases hm : ∃ ex ∈ exs, ex.isInput = true
        ∧ fuelName ex.description = r.fuelCategory
    · obtain ⟨ex₀, hex₀, hin₀, hf₀⟩ := hm
      have hrb : r ∈ df.filter (fun s =>
          s.subregion == baCodeOf ba_dict ba) :=
        List.mem_filter.mpr ⟨hr, by rw [beq_iff_eq]; exact hsub⟩
      have hsingle : (df.filter (fun s =>
            s.subregion == baCodeOf ba_dict ba)).filter
              (fun s => s.fuelCategory == fuelName ex₀.description)
          = [r] := by
        rw [hf₀]
        exact filter_fuel_single _ hnodup r hrb
      have hupd : updOutExchange (df.filter (fun s =>
            s.subregion == baCodeOf ba_dict ba)) ex₀
          = { ex₀ with amount := r.genRatioNew } := by
        unfold updOutExchange
        rw [if_pos hin₀]
        dsimp only
        rw [hsingle]
      refine ⟨{ ex₀ with amount := r.genRatioNew }, ?_, hin₀, rfl⟩
      unfold update_exchange_to_outlook
      dsimp only
      refine phase2_mem_acc _ ba _ _ _ ?_
      rw [phase1_exchanges]
      rw [List.nil_append]
      exact hupd ▸ List.mem_map_of_mem (updOutExchange _) hex₀
    · obtain ⟨ex, hex, hin, ham, _⟩ := hmain2 hm
      exact ⟨ex, hex, hin, ham⟩

/-- Inputs for the C7 witness: one input exchange for coal, an outlook
frame with the authority's coal and solar fractions (solar unused by the
process), and a BA-code dictionary. -/
def cexOutDf : List OutlookRow :=
  [{ subregion := "EBA", fuelCategory := "COAL".toList,
     genRatioNew := 1, used := false },
   { subregion := "EBA", fuelCategory := "SOLAR".toList,
     genRatioNew := 2, used := false }]

/-- The BA-code dictionary for the C7 witness. -/
def cexBaDict : List (String × String) := [("Example BA", "EBA")]

/-- The exchange list for the C7 witness. -/
def cexOutExs : List Exchange :=
  [{ isInput := true,
     description := "from COAL - Example BA".toList,
     amount := 0, internalId := 1, flow := none, flowProperty := none,
     unit := none, isAvoidedProduct := false,
     isQuantitativeReference := false }]

/-- Witness for C7: the coal row is marked used, and the solar row's
fraction appears on some input exchange of the result. -/
theorem C7_witness :
    ((((cexOutDf.filter (fun r =>
          r.subregion == baCodeOf cexBaDict "Example BA")).map
            (fun r => r.fuelCategory)).Nodup
      ∧ (∀ r ∈ cexOutDf, r.subregion = baCodeOf cexBaDict "Example BA" →
          r.used = false))
      ∧ ({ subregion := "EBA", fuelCategory := "SOLAR".toList,
           genRatioNew := 2, used := false } : OutlookRow) ∈ cexOutDf
      ∧ ("EBA" : String) = baCodeOf cexBaDict "Example BA")
    ∧ ∃ ex ∈ (update_exchange_to_outlook cexOutExs cexOutDf "Example BA"
          cexBaDict).1,
        ex.isInput = true ∧ ex.amount = (2:ℚ) :=
  ⟨⟨⟨by decide, by decide⟩, by decide, by decide⟩,
    (C7_update_exchange_to_outlook cexOutExs cexOutDf "Example BA"
      cexBaDict (by decide) (by decide)
      { subregion := "EBA", fuelCategory := "SOLAR".toList,
        genRatioNew := 2, used := false }
      (by decide) (by decide)).2.2⟩

end EnergyOutlook

namespace HawkinsYoung

/-- `hawkins_young_sigma` (`hawkins_young.py`): the scalar residual
`a*x**2 + b*x + c` with `a = 0.5`, `b = -2**0.5*z` and `c = np.log(1 + ciu)`.
`z = erfinv(alpha)` is scipy's inverse error function, taken here as the
parameter `z`. -/
noncomputable def hawkins_young_sigma (z ciu x : ℝ) : ℝ :=
  (1/2) * x^2 + (-(Real.sqrt 2) * z) * x + Real.log (1 + ciu)

/-- Modelled from the spec: `scipy.optimize.least_squares`, which is not
part of this repository.  The claim describes the fit as "least-squares
fitting from ten random starting points, keeping the largest fitted
value"; when the residual has real roots the fits converge to roots of
the quadratic and the kept value is its largest root, which is what this
definition returns. -/
noncomputable def least_squares_sigma (z ciu : ℝ) : ℝ :=
  (-(-(Real.sqrt 2) * z)
      + Real.sqrt ((-(Real.sqrt 2) * z)^2
          - 4 * (1/2) * Real.log (1 + ciu)))
    / (2 * (1/2))

/-- `hawkins_young` (`hawkins_young.py`), the `(mu, sigma)` pair it
returns: `sigma` from the quadratic fit and
`mu = np.log(ef) - 0.5*sigma**2`.  (`ciu` is taken as a parameter; the
source computes it from the data via a Student-t prediction interval
before the fit.) -/
noncomputable def hawkins_young (z ciu ef : ℝ) : ℝ × ℝ :=
  let sigma := least_squares_sigma z ciu
  let mu := Real.log ef - (1/2) * sigma^2
  (mu, sigma)

/-- C8: when the quadratic has real roots, the returned `sigma` is a root
of `0.5*sigma^2 - sqrt(2)*erfinv(alpha)*sigma + ln(1 + CIU)` (which is
exactly the code's residual), `mu = ln(EF) - sigma^2/2`, and hence the
fitted log-normal's expected value `exp(mu + sigma^2/2)` equals `EF`. -/
theorem C8_hawkins_young (z ciu ef : ℝ)
    (hdisc : 0 ≤ (-(Real.sqrt 2) * z)^2 - 4 * (1/2) * Real.log (1 + ciu))
    (hef : 0 < ef) :
    hawkins_young_sigma z ciu (hawkins_young z ciu ef).2 = 0
    ∧ (∀ x, hawkins_young_sigma z ciu x
        = (1/2) * x^2 - Real.sqrt 2 * z * x + Real.log (1 + ciu))
    ∧ (hawkins_young z ciu ef).1
        = Real.log ef - (hawkins_young z ciu ef).2^2 / 2
    ∧ Real.exp ((hawkins_young z ciu ef).1
        + (hawkins_young z ciu ef).2^2 / 2) = ef := by
  have hs2 : (hawkins_young z ciu ef).2 = least_squares_sigma z ciu := rfl
  have hs1 : (hawkins_young z ciu ef).1
      = Real.log ef - (1/2) * (least_squares_sigma z ciu)^2 := rfl
  refine ⟨?_, ?_, ?_, ?_⟩
  · rw [hs2]
    unfold hawkins_young_sigma least_squares_sigma
    have ha : (1/2 : ℝ) ≠ 0 := by norm_num
    have hdiscrim : discrim (1/2) (-(Real.sqrt 2) * z) (Real.log (1 + ciu))
        = Real.sqrt ((-(Real.sqrt 2) * z)^2
            - 4 * (1/2) * Real.log (1 + ciu))
          * Real.sqrt ((-(Real.sqrt 2) * z)^2
            - 4 * (1/2) * Real.log (1 + ciu)) := by
      rw [Real.mul_self_sqrt hdisc, discrim]
    rw [pow_two]
    exact (quadratic_eq_zero_iff ha hdiscrim _).mpr (Or.inl rfl)
  · intro x
    unfold hawkins_young_sigma
    ring
  · rw [hs1, hs2]
    ring
  · rw [hs1, hs2]
    have harg : Real.log ef - 1 / 2 * least_squares_sigma z ciu ^ 2
        + least_squares_sigma z ciu ^ 2 / 2 = Real.log ef := by
      ring
    rw [harg, Real.exp_log hef]

/-- Witness for C8 at `z = 0`, `CIU = 0`, `EF = 1`. -/
theorem C8_witness :
    ((0:ℝ) ≤ (-(Real.sqrt 2) * 0)^2 - 4 * (1/2) * Real.log (1 + 0)
      ∧ (0:ℝ) < 1)
    ∧ Real.exp ((hawkins_young 0 0 1).1 + (hawkins_young 0 0 1).2^2 / 2)
        = 1 :=
  ⟨⟨by simp [Real.log_one], by norm_num⟩,
    (C8_hawkins_young 0 0 1 (by simp [Real.log_one]) (by norm_num)).2.2.2⟩

end HawkinsYoung

namespace ElciToRem

end ElciToRem
